import Mathlib

/-!
Verification of the f1-optimal-predictor core engine against its design
specification.  The Python sources under `f1_engine/core` are shallowly
embedded below: pure functions become Lean functions over `ℝ`, fallible
code (functions that raise `ValueError`) returns `Option`, and the
`numpy` random generator is modelled as an oracle stream of draws.
-/

namespace F1

-- ===========================================================================
-- PART 1: Definitions (shallow embedding of the source)
-- ===========================================================================

/-- Circuit descriptor, from `f1_engine/core/track.py` (class `Track`). -/
structure Track where
  name : String
  straight_ratio : ℝ
  overtake_coefficient : ℝ
  energy_harvest_factor : ℝ
  tyre_degradation_factor : ℝ
  downforce_sensitivity : ℝ

/-- The `Track.__post_init__` validation: construction succeeds exactly
when these bounds hold. -/
def Track.Valid (t : Track) : Prop :=
  t.name ≠ "" ∧
  0 ≤ t.straight_ratio ∧ t.straight_ratio ≤ 1 ∧
  0 ≤ t.overtake_coefficient ∧ t.overtake_coefficient ≤ 1 ∧
  0 ≤ t.energy_harvest_factor ∧ t.energy_harvest_factor ≤ 1 ∧
  0 ≤ t.tyre_degradation_factor ∧
  0 ≤ t.downforce_sensitivity

/-- Car descriptor, from `f1_engine/core/car.py` (class `Car`). -/
structure Car where
  team_name : String
  base_speed : ℝ
  ers_efficiency : ℝ
  aero_efficiency : ℝ
  tyre_wear_rate : ℝ
  reliability : ℝ

/-- The `Car.__post_init__` validation. -/
def Car.Valid (c : Car) : Prop :=
  c.team_name ≠ "" ∧
  0 < c.base_speed ∧
  0 ≤ c.ers_efficiency ∧ c.ers_efficiency ≤ 1 ∧
  0 ≤ c.aero_efficiency ∧ c.aero_efficiency ≤ 1 ∧
  0 ≤ c.tyre_wear_rate ∧
  0 ≤ c.reliability ∧ c.reliability ≤ 1

/-- Driver descriptor, from `f1_engine/core/driver.py` (class `Driver`). -/
structure Driver where
  name : String
  team_name : String
  skill_offset : ℝ
  consistency : ℝ

/-- The `Driver.__post_init__` validation. -/
def Driver.Valid (d : Driver) : Prop :=
  d.name ≠ "" ∧ d.team_name ≠ "" ∧ 0 < d.consistency

/-- Constructor team, from `f1_engine/core/team.py` (class `Team`). -/
structure Team where
  name : String
  car : Car
  drivers : List Driver

/-- The `Team.__init__` validation. -/
def Team.Valid (t : Team) : Prop :=
  t.name ≠ "" ∧ t.drivers.length = 2 ∧ ∀ d ∈ t.drivers, d.team_name = t.name

-- ---------------------------------------------------------------------------
-- Physics model (`f1_engine/core/physics.py`)
-- ---------------------------------------------------------------------------

/-- The lap-time formula computed by `physics.lap_time` once its guards
pass: base speed, plus aero penalty, plus linear tyre degradation, minus
ERS benefit. -/
noncomputable def lapTimeFormula (track : Track) (car : Car)
    (tyre_age deploy_level : ℝ) : ℝ :=
  car.base_speed
    + track.downforce_sensitivity * (1 - car.aero_efficiency)
    + tyre_age * track.tyre_degradation_factor * car.tyre_wear_rate
    - deploy_level * car.ers_efficiency

/-- `physics.lap_time`: raises (`none`) when `tyre_age < 0` or
`deploy_level` is outside `[0, 1]`, otherwise returns the formula. -/
noncomputable def lap_time (track : Track) (car : Car)
    (tyre_age deploy_level : ℝ) : Option ℝ :=
  if tyre_age < 0 then none
  else if ¬ (0 ≤ deploy_level ∧ deploy_level ≤ 1) then none
  else some (lapTimeFormula track car tyre_age deploy_level)

/-- The concrete track of the spec scenario (section 8). -/
noncomputable def scenarioTrack : Track :=
  { name := "S"
    straight_ratio := 0.5
    overtake_coefficient := 0.5
    energy_harvest_factor := 0.5
    tyre_degradation_factor := 0.05
    downforce_sensitivity := 2.5 }

/-- The concrete car of the spec scenario (section 8). -/
noncomputable def scenarioCar : Car :=
  { team_name := "S"
    base_speed := 80.0
    ers_efficiency := 0.8
    aero_efficiency := 0.85
    tyre_wear_rate := 1.0
    reliability := 0.95 }

-- ---------------------------------------------------------------------------
-- Energy model (`f1_engine/core/energy.py`)
-- ---------------------------------------------------------------------------

/-- ERS battery state, from `f1_engine/core/energy.py` (class
`EnergyState`). -/
structure EnergyState where
  current_charge : ℝ
  max_charge : ℝ

/-- `EnergyState.deploy`: rejects a negative request, otherwise removes
and returns `min(amount, current_charge)`. -/
noncomputable def EnergyState.deploy (s : EnergyState) (amount : ℝ) :
    Option (ℝ × EnergyState) :=
  if amount < 0 then none
  else
    let actual := min amount s.current_charge
    some (actual, { s with current_charge := s.current_charge - actual })

/-- `EnergyState.harvest`: rejects a negative request, otherwise adds and
returns `min(amount, max_charge - current_charge)`. -/
noncomputable def EnergyState.harvest (s : EnergyState) (amount : ℝ) :
    Option (ℝ × EnergyState) :=
  if amount < 0 then none
  else
    let headroom := s.max_charge - s.current_charge
    let actual := min amount headroom
    some (actual, { s with current_charge := s.current_charge + actual })

/-- One requested battery operation. -/
inductive EnergyOp where
  | deployOp (amount : ℝ)
  | harvestOp (amount : ℝ)

/-- Apply one operation; a rejected (negative-amount) request raises in
the source before any mutation, so the charge is left unchanged. -/
noncomputable def EnergyState.applyOp (s : EnergyState) : EnergyOp → EnergyState
  | .deployOp a =>
      match s.deploy a with
      | some (_, s2) => s2
      | none => s
  | .harvestOp a =>
      match s.harvest a with
      | some (_, s2) => s2
      | none => s

/-- Run a finite sequence of deploy/harvest calls. -/
noncomputable def EnergyState.runOps (s : EnergyState) : List EnergyOp → EnergyState
  | [] => s
  | op :: rest => (s.applyOp op).runOps rest

/-- The battery invariant of the spec: charge within `[0, max_charge]`. -/
def EnergyState.Inv (s : EnergyState) : Prop :=
  0 ≤ s.current_charge ∧ s.current_charge ≤ s.max_charge

-- ---------------------------------------------------------------------------
-- Claim C9
-- ---------------------------------------------------------------------------

/-- A valid car with zero ERS efficiency and zero tyre wear rate:
permitted by `Car.__post_init__`, which only requires these fields to be
nonnegative (and ERS efficiency at most 1). -/
noncomputable def flatCar : Car :=
  { team_name := "F"
    base_speed := 80.0
    ers_efficiency := 0.0
    aero_efficiency := 0.85
    tyre_wear_rate := 0.0
    reliability := 0.95 }

-- ---------------------------------------------------------------------------
-- Tyre compounds and strategies (`f1_engine/core/tyre.py`, `strategy.py`)
-- ---------------------------------------------------------------------------

/-- Tyre compound descriptor, from `f1_engine/core/tyre.py`
(class `TyreCompound`). -/
structure TyreCompound where
  name : String
  base_pace_delta : ℝ
  degradation_rate : ℝ

/-- The predefined `SOFT` compound. -/
noncomputable def SOFT : TyreCompound := ⟨"SOFT", -0.6, 1.5⟩

/-- The predefined `MEDIUM` compound. -/
noncomputable def MEDIUM : TyreCompound := ⟨"MEDIUM", -0.3, 1.0⟩

/-- The predefined `HARD` compound. -/
noncomputable def HARD : TyreCompound := ⟨"HARD", 0.0, 0.7⟩

/-- The closed three-member compound registry keyed by name
(`pit_dp._COMPOUNDS`). -/
inductive CompoundName where
  | soft
  | medium
  | hard
deriving DecidableEq

/-- Registry lookup `_COMPOUNDS[name]`. -/
noncomputable def compoundOf : CompoundName → TyreCompound
  | .soft => SOFT
  | .medium => MEDIUM
  | .hard => HARD

/-- Iteration order of the registry (Python dict insertion order:
SOFT, MEDIUM, HARD). -/
def compound_names : List CompoundName := [.soft, .medium, .hard]

/-- Driving plan, from `f1_engine/core/strategy.py` (class `Strategy`). -/
structure Strategy where
  deploy_level : ℝ
  harvest_level : ℝ
  compound_sequence : List TyreCompound
  pit_laps : List ℕ

/-- The `Strategy.__post_init__` validation. -/
def Strategy.Valid (s : Strategy) : Prop :=
  0 ≤ s.deploy_level ∧ s.deploy_level ≤ 1 ∧
  0 ≤ s.harvest_level ∧ s.harvest_level ≤ 1 ∧
  s.compound_sequence.length = s.pit_laps.length + 1 ∧
  s.pit_laps.Sorted (· ≤ ·) ∧ s.pit_laps.Nodup

-- ---------------------------------------------------------------------------
-- DP pit optimiser (`f1_engine/core/pit_dp.py`)
-- ---------------------------------------------------------------------------

/-- `race.PIT_LOSS`: seconds added to cumulative time per pit stop. -/
noncomputable def PIT_LOSS : ℝ := 20.0

/-- `pit_dp._lap_cost`: deterministic cost of one lap, mirroring the race
engine: base lap time at zero tyre age and zero deploy (both guards of
`physics.lap_time` hold trivially there), plus compound-scaled tyre
degradation, plus the compound pace delta. -/
noncomputable def _lap_cost (track : Track) (car : Car) (tyre_age : ℕ)
    (compound : TyreCompound) : ℝ :=
  lapTimeFormula track car 0 0
    + (tyre_age : ℝ) * track.tyre_degradation_factor * car.tyre_wear_rate
        * compound.degradation_rate
    + compound.base_pace_delta

/-- The strict-improvement scan over pit-to-compound options inside the
backward induction (the `for new_cname in compound_names` loop): keeps
the incumbent unless a candidate is strictly cheaper. -/
noncomputable def pitScan (pitCost : CompoundName → ℝ) :
    List CompoundName → ℝ × Option CompoundName → ℝ × Option CompoundName
  | [], best => best
  | c2 :: rest, best =>
      pitScan pitCost rest
        (if pitCost c2 < best.1 then (pitCost c2, some c2) else best)

/-- The backward-induction memo of `compute_optimal_strategy_dp`, indexed
by remaining laps (`fuel`, so the current lap is `L - fuel`), tyre age
and current compound.  Returns `(cost-to-go, action)` where `none` means
continue and `some c` means pit to compound `c`.  Pitting is only
permitted when `0 < lap < L - 1`. -/
noncomputable def dpBest (track : Track) (car : Car) (L : ℕ) :
    ℕ → ℕ → CompoundName → ℝ × Option CompoundName
  | 0, _, _ => (0, none)
  | fuel + 1, tyre_age, c =>
      let lap := L - (fuel + 1)
      let continue_cost := _lap_cost track car tyre_age (compoundOf c) +
        (dpBest track car L fuel (min (tyre_age + 1) L) c).1
      if 0 < lap ∧ lap < L - 1 then
        pitScan
          (fun c2 => PIT_LOSS + _lap_cost track car 0 (compoundOf c2) +
            (dpBest track car L fuel 1 c2).1)
          compound_names (continue_cost, none)
      else (continue_cost, none)

/-- The forward policy-extraction pass of `compute_optimal_strategy_dp`:
replays the stored actions from the start state, emitting 1-based pit
laps and the fitted compounds. -/
noncomputable def dpExtract (track : Track) (car : Car) (L : ℕ) :
    ℕ → ℕ → CompoundName → List ℕ × List CompoundName
  | 0, _, _ => ([], [])
  | fuel + 1, tyre_age, c =>
      let lap := L - (fuel + 1)
      match (dpBest track car L (fuel + 1) tyre_age c).2 with
      | some c2 =>
          let rest := dpExtract track car L fuel 1 c2
          ((lap + 1) :: rest.1, c2 :: rest.2)
      | none => dpExtract track car L fuel (tyre_age + 1) c

/-- `compute_optimal_strategy_dp`: the returned `Strategy` with zero
deploy/harvest, the starting compound followed by the fitted compounds,
and the 1-based pit laps. -/
noncomputable def compute_optimal_strategy_dp (track : Track) (car : Car)
    (L : ℕ) (starting_compound : CompoundName) : Strategy :=
  let rest := dpExtract track car L L 0 starting_compound
  { deploy_level := 0
    harvest_level := 0
    compound_sequence := compoundOf starting_compound :: rest.2.map compoundOf
    pit_laps := rest.1 }

/-- Total race time of a pit schedule under the optimiser cost model:
per-lap `_lap_cost` plus `PIT_LOSS` for each stop; a stop listed for
1-based lap `lap+1` pays the pit loss and drives that lap on fresh tyres
of the next compound, after which the tyre age is 1. -/
noncomputable def dpEvalSched (track : Track) (car : Car) (L : ℕ) :
    ℕ → ℕ → TyreCompound → List ℕ → List TyreCompound → ℝ
  | 0, _, _, _, _ => 0
  | fuel + 1, tyre_age, cur, p :: ps, c2 :: cs =>
      if p = L - (fuel + 1) + 1 then
        PIT_LOSS + _lap_cost track car 0 c2 +
          dpEvalSched track car L fuel 1 c2 ps cs
      else
        _lap_cost track car tyre_age cur +
          dpEvalSched track car L fuel (tyre_age + 1) cur (p :: ps) (c2 :: cs)
  | fuel + 1, tyre_age, cur, ps, cs =>
      _lap_cost track car tyre_age cur +
        dpEvalSched track car L fuel (tyre_age + 1) cur ps cs

/-- Total time of a `Strategy` (its pit laps and compound sequence) under
the optimiser cost model, from the grid start. -/
noncomputable def dpStrategyCost (track : Track) (car : Car) (L : ℕ)
    (s : Strategy) : ℝ :=
  match s.compound_sequence with
  | [] => 0
  | c :: cs => dpEvalSched track car L L 0 c s.pit_laps cs

/-- The naive zero-stop strategy that stays on the starting compound. -/
noncomputable def zeroStopStrategy (starting_compound : CompoundName) : Strategy :=
  { deploy_level := 0
    harvest_level := 0
    compound_sequence := [compoundOf starting_compound]
    pit_laps := [] }

-- ---------------------------------------------------------------------------
-- Stint simulation and grid strategy search (`f1_engine/core/stint.py`)
-- ---------------------------------------------------------------------------

/-- Mutable tyre wear tracker, from `f1_engine/core/tyre.py` (class
`TyreState`).  Ages are Python ints kept non-negative, hence `ℕ`. -/
structure TyreState where
  age : ℕ
  wear_rate_multiplier : ℝ
  compound : TyreCompound

/-- The lap loop of `simulate_stint`: per lap, harvest, deploy, compute
the lap time through `physics.lap_time` at the current tyre age, advance
the tyre.  Returns the per-lap times; `none` when any step raises. -/
noncomputable def stintSteps (track : Track) (car : Car) (strategy : Strategy) :
    ℕ → EnergyState → ℕ → Option (List ℝ)
  | 0, _, _ => some []
  | n + 1, energy, tyre_age =>
      match energy.harvest (track.energy_harvest_factor * strategy.harvest_level) with
      | none => none
      | some (_, e1) =>
          match e1.deploy strategy.deploy_level with
          | none => none
          | some (actual_deploy, e2) =>
              match lap_time track car (tyre_age : ℝ) actual_deploy with
              | none => none
              | some t =>
                  match stintSteps track car strategy n e2 (tyre_age + 1) with
                  | none => none
                  | some ts => some (t :: ts)

/-- `simulate_stint`, reduced to the total stint time: raises when
`laps < 1` (or when `TyreState` construction rejects a negative wear
rate), otherwise the sum of the lap times from a full battery. -/
noncomputable def simulate_stint (track : Track) (car : Car)
    (strategy : Strategy) (laps : ℕ) : Option ℝ :=
  if laps < 1 then none
  else if car.tyre_wear_rate < 0 then none
  else (stintSteps track car strategy laps ⟨4, 4⟩ 0).map List.sum

/-- Constant-deploy candidate strategy at level `dl` (harvest 1.0,
single default medium stint). -/
noncomputable def constStrategy (dl : ℝ) : Strategy := ⟨dl, 1, [MEDIUM], []⟩

/-- The scan of `find_best_constant_deploy` over the candidate deploy
levels; the incumbent is replaced on strictly lower total time (the
first candidate always beats the initial infinity). -/
noncomputable def bestDeployScan (track : Track) (car : Car) (laps : ℕ) :
    List ℝ → Option (Strategy × ℝ) → Option (Option (Strategy × ℝ))
  | [], best => some best
  | dl :: rest, best =>
      match simulate_stint track car (constStrategy dl) laps with
      | none => none
      | some total =>
          let best2 :=
            match best with
            | none => (constStrategy dl, total)
            | some (bs, bt) => if total < bt then (constStrategy dl, total) else (bs, bt)
          bestDeployScan track car laps rest (some best2)

/-- `find_best_constant_deploy`: deploy levels 0.0, 0.2, 0.4, 0.6, 0.8 at
harvest 1.0; returns the best strategy and its total time.  `none` when a
stint simulation raises or the final assertion fails. -/
noncomputable def find_best_constant_deploy (track : Track) (car : Car)
    (laps : ℕ) : Option (Strategy × ℝ) :=
  match bestDeployScan track car laps [0, 0.2, 0.4, 0.6, 0.8] none with
  | none => none
  | some none => none
  | some (some r) => some r

/-- The lap loop of `_simulate_compound_stint`: base lap time at zero
tyre age, plus compound-scaled degradation and the compound pace delta;
returns the total. -/
noncomputable def compoundStintSteps (track : Track) (car : Car)
    (compound : TyreCompound) (deploy_level harvest_level : ℝ) :
    ℕ → EnergyState → ℕ → Option ℝ
  | 0, _, _ => some 0
  | n + 1, energy, tyre_age =>
      match energy.harvest (track.energy_harvest_factor * harvest_level) with
      | none => none
      | some (_, e1) =>
          match e1.deploy deploy_level with
          | none => none
          | some (actual_deploy, e2) =>
              match lap_time track car 0 actual_deploy with
              | none => none
              | some t0 =>
                  match compoundStintSteps track car compound deploy_level
                      harvest_level n e2 (tyre_age + 1) with
                  | none => none
                  | some rest =>
                      some ((t0
                        + (tyre_age : ℝ) * track.tyre_degradation_factor
                            * car.tyre_wear_rate * compound.degradation_rate
                        + compound.base_pace_delta) + rest)

/-- `_simulate_compound_stint`: total time of a single-compound stint
from a full battery. -/
noncomputable def _simulate_compound_stint (track : Track) (car : Car)
    (laps : ℕ) (compound : TyreCompound) (deploy_level harvest_level : ℝ) :
    Option ℝ :=
  if car.tyre_wear_rate < 0 then none
  else compoundStintSteps track car compound deploy_level harvest_level laps ⟨4, 4⟩ 0

/-- The compound iteration order `[SOFT, MEDIUM, HARD]` of the grid
search. -/
noncomputable def gridCompounds : List TyreCompound := [SOFT, MEDIUM, HARD]

/-- The pit-offset iteration order `range(-5, 6)`. -/
def pitOffsets : List ℤ := [-5, -4, -3, -2, -1, 0, 1, 2, 3, 4, 5]

/-- One-stop candidate evaluations of `find_best_pit_strategy`, in
enumeration order: offset around the midpoint, then both stint
compounds; a skipped pit lap contributes no candidates; `none` marks a
raising evaluation. -/
noncomputable def oneStopCands (track : Track) (car : Car) (total_laps : ℕ)
    (pit_loss deploy harvest : ℝ) : List (Option (ℝ × Strategy)) :=
  let pit1 : ℤ := max 2 (min ((total_laps : ℤ) - 1) ((total_laps : ℤ) / 2))
  pitOffsets.flatMap fun pit_offset =>
    let plap := pit1 + pit_offset
    if plap < 2 ∨ (total_laps : ℤ) ≤ plap then []
    else
      gridCompounds.flatMap fun c1 =>
        gridCompounds.map fun c2 =>
          match _simulate_compound_stint track car plap.toNat c1 deploy harvest,
              _simulate_compound_stint track car (total_laps - plap.toNat) c2
                deploy harvest with
          | some t1, some t2 =>
              some (t1 + pit_loss + t2,
                ⟨deploy, harvest, [c1, c2], [plap.toNat]⟩)
          | _, _ => none

/-- Two-stop candidate evaluations of `find_best_pit_strategy`, in
enumeration order. -/
noncomputable def twoStopCands (track : Track) (car : Car) (total_laps : ℕ)
    (pit_loss deploy harvest : ℝ) : List (Option (ℝ × Strategy)) :=
  let p1_base : ℤ := max 2 ((total_laps : ℤ) / 3)
  let p2_base : ℤ := max (p1_base + 1) (2 * (total_laps : ℤ) / 3)
  pitOffsets.flatMap fun p1_off =>
    pitOffsets.flatMap fun p2_off =>
      let p1 := p1_base + p1_off
      let p2 := p2_base + p2_off
      if p1 < 2 ∨ p2 ≤ p1 ∨ (total_laps : ℤ) ≤ p2 then []
      else
        gridCompounds.flatMap fun c1 =>
          gridCompounds.flatMap fun c2 =>
            gridCompounds.map fun c3 =>
              match _simulate_compound_stint track car p1.toNat c1 deploy harvest,
                  _simulate_compound_stint track car (p2 - p1).toNat c2
                    deploy harvest,
                  _simulate_compound_stint track car (total_laps - p2.toNat) c3
                    deploy harvest with
              | some t1, some t2, some t3 =>
                  some (t1 + pit_loss + t2 + pit_loss + t3,
                    ⟨deploy, harvest, [c1, c2, c3], [p1.toNat, p2.toNat]⟩)
              | _, _, _ => none

/-- Folding the candidate evaluations in order: an exception (`none`
element) aborts; otherwise the incumbent is replaced on strictly lower
cost.  The outer `none` is a raised exception; the inner `none` is the
missing incumbent (`best_strategy is None`). -/
noncomputable def pitSearchFold :
    List (Option (ℝ × Strategy)) → Option (ℝ × Strategy) →
      Option (Option (ℝ × Strategy))
  | [], best => some best
  | none :: _, _ => none
  | some (t, s) :: rest, best =>
      let best2 :=
        match best with
        | none => (t, s)
        | some (bt, bs) => if t < bt then (t, s) else (bt, bs)
      pitSearchFold rest (some best2)

/-- `find_best_pit_strategy`: the grid search over limited 1-stop and
2-stop plans.  Returns the best strategy and its time; `none` when any
simulation raises or when the final `assert best_strategy is not None`
fails. -/
noncomputable def find_best_pit_strategy (track : Track) (car : Car)
    (total_laps : ℕ) (pit_loss : ℝ) : Option (Strategy × ℝ) :=
  match find_best_constant_deploy track car total_laps with
  | none => none
  | some (bstrat, _) =>
      let deploy := bstrat.deploy_level
      let harvest := bstrat.harvest_level
      match pitSearchFold
          (oneStopCands track car total_laps pit_loss deploy harvest ++
            twoStopCands track car total_laps pit_loss deploy harvest) none with
      | none => none
      | some none => none
      | some (some (bt, bs)) => some (bs, bt)

-- ---------------------------------------------------------------------------
-- Season seeding scheme (`f1_engine/core/season.py`)
-- ---------------------------------------------------------------------------

/-- The two-level seed of `simulate_season_monte_carlo`:
`season_seed = base_seed + season_index` and then
`race_seed = season_seed + race_index * 1000`. -/
def race_seed (base_seed : ℤ) (season_index race_index : ℕ) : ℤ :=
  (base_seed + season_index) + race_index * 1000

/-- The `(season_index, race_index, seed)` triples produced by the nested
loops of `simulate_season_monte_carlo` over `seasons` replications of a
calendar with `races` tracks. -/
def seasonRaceSeeds (base_seed : ℤ) (seasons races : ℕ) :
    List ((ℕ × ℕ) × ℤ) :=
  (List.range seasons).flatMap fun season_index =>
    (List.range races).map fun race_index =>
      ((season_index, race_index), race_seed base_seed season_index race_index)

-- ---------------------------------------------------------------------------
-- Race simulator (`f1_engine/core/race.py`)
-- ---------------------------------------------------------------------------

/-- The seeded `numpy.random.Generator`, modelled as an oracle: `draws k`
is the uniform variate returned by the k-th consuming call when it is
`rng.random()`, and `gauss k` the standard normal variate when it is
`rng.normal(0, std)` (scaled by `std`); `k` counts calls made so far. -/
structure Rng where
  draws : ℕ → ℝ
  gauss : ℕ → ℝ
  k : ℕ

/-- `rng.normal(0.0, std)`: one consuming call. -/
noncomputable def Rng.normal (r : Rng) (std : ℝ) : ℝ × Rng :=
  (std * r.gauss r.k, { r with k := r.k + 1 })

/-- `rng.random()`: one consuming call. -/
noncomputable def Rng.random (r : Rng) : ℝ × Rng :=
  (r.draws r.k, { r with k := r.k + 1 })

/-- Per-driver mutable bookkeeping, from `race._DriverState`. -/
structure DriverState where
  driver : Driver
  car : Car
  energy : EnergyState
  tyre : TyreState
  deploy_level : ℝ
  harvest_level : ℝ
  cumulative_time : ℝ
  lap_times : List ℝ
  active : Bool
  last_lap_time : ℝ
  pit_laps : List ℕ
  compound_sequence : List TyreCompound
  stint_index : ℕ

/-- Placeholder state used for (never-taken) out-of-range list reads. -/
noncomputable def dummyDriverState : DriverState :=
  ⟨⟨"", "", 0, 1⟩, ⟨"", 1, 0, 0, 0, 0⟩, ⟨4, 4⟩, ⟨0, 1, MEDIUM⟩,
    0, 0, 0, [], true, 0, [], [MEDIUM], 0⟩

/-- `_DriverState.__init__`: fresh battery, fresh tyres on the starting
compound (`compound_sequence[0]`; validation guarantees the sequence is
non-empty, the `MEDIUM` fallback is unreachable). -/
noncomputable def mkDriverState (driver : Driver) (car : Car)
    (strat : Strategy) : DriverState :=
  { driver := driver
    car := car
    energy := ⟨4, 4⟩
    tyre := ⟨0, car.tyre_wear_rate,
      match strat.compound_sequence with
      | [] => MEDIUM
      | c :: _ => c⟩
    deploy_level := strat.deploy_level
    harvest_level := strat.harvest_level
    cumulative_time := 0
    lap_times := []
    active := true
    last_lap_time := 0
    pit_laps := strat.pit_laps
    compound_sequence := strat.compound_sequence
    stint_index := 0 }

/-- Race outcome, from `race.RaceResult`; the `lap_times` dict is kept as
an association list in driver-state order. -/
structure RaceResult where
  final_classification : List String
  dnf_list : List String
  lap_times : List (String × List ℝ)

/-- Steps 1-7 of the per-lap update for one driver (inactive drivers are
skipped unchanged): harvest, deploy, deterministic lap time with the
compound-scaled degradation, pace delta and skill offset, optional
Gaussian noise, reliability-hazard DNF check, tyre ageing, and the pit
stop with `PIT_LOSS`, stint advance and tyre reset. -/
noncomputable def driverLap (track : Track) (noise_std : ℝ) (lap_number : ℕ)
    (ds : DriverState) (rng : Rng) : Option (DriverState × Rng) :=
  if ds.active = false then some (ds, rng)
  else
    (ds.energy.harvest (track.energy_harvest_factor * ds.harvest_level)).bind
      fun h1 =>
    (h1.2.deploy ds.deploy_level).bind fun h2 =>
    (lap_time track ds.car 0 h2.1).bind fun t0 =>
    let compound := ds.tyre.compound
    let base_tyre_component := (ds.tyre.age : ℝ) *
      track.tyre_degradation_factor * ds.car.tyre_wear_rate
    let t1 := t0 + base_tyre_component * compound.degradation_rate
      + compound.base_pace_delta + ds.driver.skill_offset
    let noised :=
      if 0 < noise_std then
        let g := rng.normal (noise_std * ds.driver.consistency)
        (t1 + g.1, g.2)
      else (t1, rng)
    let hazard := 1 - Real.exp (-(1 - ds.car.reliability))
    let u := noised.2.random
    let active2 := if u.1 < hazard then false else ds.active
    let tyre2 : TyreState := { ds.tyre with age := ds.tyre.age + 1 }
    let ds2 : DriverState :=
      if lap_number ∈ ds.pit_laps then
        let stint2 := ds.stint_index + 1
        let next_compound : Option TyreCompound :=
          if stint2 < ds.compound_sequence.length then
            some (ds.compound_sequence.getD stint2 MEDIUM)
          else none
        { ds with
          energy := h2.2
          last_lap_time := noised.1
          cumulative_time := ds.cumulative_time + noised.1 + PIT_LOSS
          lap_times := ds.lap_times ++ [noised.1]
          active := active2
          stint_index := stint2
          tyre := ⟨0, tyre2.wear_rate_multiplier,
            match next_compound with
            | some c => c
            | none => tyre2.compound⟩ }
      else
        { ds with
          energy := h2.2
          last_lap_time := noised.1
          cumulative_time := ds.cumulative_time + noised.1
          lap_times := ds.lap_times ++ [noised.1]
          active := active2
          tyre := tyre2 }
    some (ds2, u.2)

/-- The inner `for ds in states` loop of one lap, threading the
generator through the drivers in state order. -/
noncomputable def runDrivers (track : Track) (noise_std : ℝ)
    (lap_number : ℕ) : List DriverState → Rng → Option (List DriverState × Rng)
  | [], rng => some ([], rng)
  | ds :: rest, rng =>
      (driverLap track noise_std lap_number ds rng).bind fun p =>
      (runDrivers track noise_std lap_number rest p.2).bind fun q =>
      some (p.1 :: q.1, q.2)

/-- Indices of the still-active drivers, sorted by ascending cumulative
time (Python `list.sort` is stable; so is the insertion sort used
here). -/
noncomputable def activeRanked (states : List DriverState) : List ℕ :=
  @List.insertionSort ℕ
    (fun i j => (states.getD i dummyDriverState).cumulative_time ≤
      (states.getD j dummyDriverState).cumulative_time)
    (fun i j => Real.decidableLE _ _)
    ((List.range states.length).filter
      (fun i => (states.getD i dummyDriverState).active))

/-- `race._apply_overtakes` over the ranked index list: for each adjacent
pair within 1.0 s, draw against the logistic pass probability; a
successful pass persistently transfers `_PASS_TIME_DELTA = 0.2` s between
cumulative times and skips the next pair. -/
noncomputable def overtakePass (track : Track) :
    List ℕ → List DriverState → Rng → List DriverState × Rng
  | i :: j :: rest, states, rng =>
      let leader := states.getD i dummyDriverState
      let trailer := states.getD j dummyDriverState
      let gap := |trailer.cumulative_time - leader.cumulative_time|
      if gap < 1 then
        let delta := trailer.last_lap_time - leader.last_lap_time
        let exponent := -3 * delta * track.overtake_coefficient
        let pass_prob := 1 / (1 + Real.exp exponent)
        let u := rng.random
        if u.1 < pass_prob then
          let newTrailerCum := max 0 (leader.cumulative_time - 0.2)
          let newLeaderCum := leader.cumulative_time + 0.2
          let states1 := states.set j { trailer with cumulative_time := newTrailerCum }
          let states2 := states1.set i { leader with cumulative_time := newLeaderCum }
          overtakePass track rest states2 u.2
        else overtakePass track (j :: rest) states u.2
      else overtakePass track (j :: rest) states rng
  | _, states, rng => (states, rng)

/-- One full lap: update every driver, then rank the active drivers by
cumulative time and run the overtake pass on adjacent pairs. -/
noncomputable def raceLap (track : Track) (noise_std : ℝ) (lap_number : ℕ)
    (states : List DriverState) (rng : Rng) :
    Option (List DriverState × Rng) :=
  (runDrivers track noise_std lap_number states rng).bind fun p =>
  some (overtakePass track (activeRanked p.1) p.1 p.2)

/-- The lap loop over `lap_number = 1 .. laps`. -/
noncomputable def raceLoop (track : Track) (noise_std : ℝ) :
    ℕ → ℕ → List DriverState → Rng → Option (List DriverState × Rng)
  | 0, _, states, rng => some (states, rng)
  | n + 1, lap_number, states, rng =>
      (raceLap track noise_std lap_number states rng).bind fun p =>
      raceLoop track noise_std n (lap_number + 1) p.1 p.2

/-- Initial driver states: per team, the default strategy comes from
`find_best_constant_deploy` on the shared car (computed for every team),
overridden per driver by the `strategies` mapping. -/
noncomputable def initStates (track : Track) (laps : ℕ)
    (strategies : String → Option Strategy) :
    List Team → Option (List DriverState)
  | [] => some []
  | team :: rest =>
      (find_best_constant_deploy track team.car laps).bind fun best =>
      (initStates track laps strategies rest).bind fun rs =>
      some ((team.drivers.map fun driver =>
        mkDriverState driver team.car
          ((strategies driver.name).getD best.1)) ++ rs)

/-- The still-active driver states sorted by ascending cumulative time
(final classification order of the finishers; a stable sort, like
Python `sorted`). -/
noncomputable def sortActive (states : List DriverState) : List DriverState :=
  @List.insertionSort DriverState
    (fun a b => a.cumulative_time ≤ b.cumulative_time)
    (fun a b => Real.decidableLE _ _)
    (states.filter (fun s => s.active))

/-- `race.simulate_race`: raises when `laps < 1` or no teams are entered;
otherwise runs the lap loop and classifies finishers by cumulative time
followed by the DNF entries. -/
noncomputable def simulate_race (track : Track) (teams : List Team)
    (laps : ℕ) (noise_std : ℝ) (strategies : String → Option Strategy)
    (rng : Rng) : Option RaceResult :=
  if laps < 1 then none
  else if teams.isEmpty then none
  else
    (initStates track laps strategies teams).bind fun states =>
    (raceLoop track noise_std laps 1 states rng).bind fun p =>
    let active_sorted := sortActive p.1
    let dnf_sorted := p.1.filter (fun s => !s.active)
    some
      { final_classification := active_sorted.map (fun s => s.driver.name) ++
          dnf_sorted.map (fun s => s.driver.name)
        dnf_list := dnf_sorted.map (fun s => s.driver.name)
        lap_times := p.1.map (fun s => (s.driver.name, s.lap_times)) }

-- ---------------------------------------------------------------------------
-- Concrete race fixtures
-- ---------------------------------------------------------------------------

/-- A valid car with reliability 0.5 (nonzero retirement hazard). -/
noncomputable def cxCar : Car := ⟨"T", 80, 0, 1, 0, 0.5⟩

/-- First entered driver. -/
noncomputable def cxD1 : Driver := ⟨"D1", "T", 0, 1⟩

/-- Second entered driver. -/
noncomputable def cxD2 : Driver := ⟨"D2", "T", 0, 1⟩

/-- A single two-driver team. -/
noncomputable def cxTeam : Team := ⟨"T", cxCar, [cxD1, cxD2]⟩

/-- Zero-deploy, zero-harvest, single-medium-stint, no-stop strategy. -/
noncomputable def cxStrat : Strategy := ⟨0, 0, [MEDIUM], []⟩

/-- Every driver is assigned `cxStrat` explicitly. -/
noncomputable def cxStrategies : String → Option Strategy := fun _ => some cxStrat

/-- A valid track with zero harvest and degradation factors. -/
noncomputable def cxTrack : Track := ⟨"C", 0.5, 0.5, 0, 0, 0⟩

/-- Oracle draws for a 1-lap race in which the second driver retires:
the hazard draw of driver 1 (call 1) is 1, that of driver 2 (call 3)
is 0; all noise variates are 0. -/
noncomputable def cxRng : Rng := ⟨fun k => if k = 3 then 0 else 1, fun _ => 0, 0⟩

/-- Oracle draws for a 2-lap race in which driver 2 retires on lap 1 and
driver 1 on lap 2: only the hazard draw of driver 1 on lap 1 (call 1)
is 1, all other draws are 0. -/
noncomputable def cx2Rng : Rng := ⟨fun k => if k = 1 then 1 else 0, fun _ => 0, 0⟩

/-- A fully reliable variant of the fixture car. -/
noncomputable def cxwCar : Car := ⟨"T", 80, 0, 1, 0, 1⟩

/-- The fixture team with the fully reliable car. -/
noncomputable def cxwTeam : Team := ⟨"T", cxwCar, [cxD1, cxD2]⟩

/-- Constant draws at 0.5: with zero hazard nobody retires and the 0.5
draw never beats the even logistic pass probability. -/
noncomputable def cxwRng : Rng := ⟨fun _ => 0.5, fun _ => 0, 0⟩

-- ---------------------------------------------------------------------------
-- Safety-car regime (spec-modelled)
-- ---------------------------------------------------------------------------

/-- Modelled from the spec: the fixed safety-car pace that overrides the
physics-derived lap time while the regime is active.  The safety-car
extension is missing from the provided sources: `race.py` contains no
safety-car code and `Track` lacks the `safety_car_lambda` and
`safety_car_resume_lambda` fields, although `tests/test_safety_car.py`
imports `SC_GAP_INTERVAL` and `SC_PIT_MULTIPLIER` from `race` and
exercises the regime. -/
noncomputable def SC_PACE : ℝ := 120.0

/-- Modelled from the spec: the small fixed interval toward which gaps
are compressed after each safety-car lap (pinned to 0.2 s by
`tests/test_safety_car.py`). -/
noncomputable def SC_GAP_INTERVAL : ℝ := 0.2

/-- Modelled from the spec: the fixed multiplier (< 1) discounting the
pit-stop loss under the safety car (pinned to 0.6 by
`tests/test_safety_car.py`, which asserts `PIT_LOSS * SC_PIT_MULTIPLIER
= 12.0`). -/
noncomputable def SC_PIT_MULTIPLIER : ℝ := 0.6

/-- Modelled from the spec: the per-driver update on a lap with the
safety-car regime active — every active driver runs exactly `SC_PACE`
(no physics, noise or hazard), and a scheduled pit stop costs
`PIT_LOSS * SC_PIT_MULTIPLIER` and resets the tyres. -/
noncomputable def scDriverLap (lap_number : ℕ) (ds : DriverState) : DriverState :=
  if ds.active = false then ds
  else
    let pit_add : ℝ :=
      if lap_number ∈ ds.pit_laps then PIT_LOSS * SC_PIT_MULTIPLIER else 0
    { ds with
      last_lap_time := SC_PACE
      cumulative_time := ds.cumulative_time + SC_PACE + pit_add
      lap_times := ds.lap_times ++ [SC_PACE]
      tyre :=
        if lap_number ∈ ds.pit_laps then
          ⟨0, ds.tyre.wear_rate_multiplier, ds.tyre.compound⟩
        else { ds.tyre with age := ds.tyre.age + 1 }
      stint_index :=
        ds.stint_index + (if lap_number ∈ ds.pit_laps then 1 else 0) }

/-- Modelled from the spec: gap compression — the `i`-th ranked car is
placed `i * SC_GAP_INTERVAL` behind the leader. -/
noncomputable def scCompress (leader_time : ℝ) :
    ℕ → List DriverState → List DriverState
  | _, [] => []
  | i, s :: rest =>
      { s with cumulative_time := leader_time + i * SC_GAP_INTERVAL } ::
        scCompress leader_time (i + 1) rest

/-- Modelled from the spec: one full safety-car lap over the field —
pace override and pit discount per driver, then compression of the
ranked active field; the overtake pass is not run while the regime is
active. -/
noncomputable def scLapRanked (lap_number : ℕ)
    (states : List DriverState) : List DriverState :=
  let updated := states.map (scDriverLap lap_number)
  match sortActive updated with
  | [] => []
  | leader :: rest => scCompress leader.cumulative_time 0 (leader :: rest)

-- ---------------------------------------------------------------------------
-- Monte Carlo points award (`f1_engine/core/monte_carlo.py`)
-- ---------------------------------------------------------------------------

/-- The standard points table for positions 1-10. -/
def _POINTS_TABLE : List ℕ := [25, 18, 15, 12, 10, 8, 6, 4, 2, 1]

/-- The `for pos_idx, name in enumerate(classification)` accumulation of
one replication, restricted to one driver: positions are awarded down the
full final classification, with points added while
`pos_idx < len(_POINTS_TABLE)`. -/
def racePointsAux : List String → ℕ → String → ℕ
  | [], _, _ => 0
  | n :: rest, pos_idx, name =>
      (if n = name ∧ pos_idx < _POINTS_TABLE.length
        then _POINTS_TABLE.getD pos_idx 0 else 0) +
        racePointsAux rest (pos_idx + 1) name

/-- Championship points awarded to `name` in one replication with the
given final classification. -/
def racePoints (classification : List String) (name : String) : ℕ :=
  racePointsAux classification 0 name

/-- The names of the entered drivers, in team/driver enumeration order. -/
def enteredNames (teams : List Team) : List String :=
  teams.flatMap fun team => team.drivers.map fun d => d.name

-- ---------------------------------------------------------------------------
-- Kalman calibrator (`f1_engine/core/kalman_update.py`)
-- ---------------------------------------------------------------------------

/-- Kalman belief over a car performance vector
`[base_speed, ers_efficiency, reliability]`, from
`f1_engine/core/kalman_update.py` (class `KalmanPerformanceState`). -/
structure KalmanPerformanceState where
  theta : Fin 3 → ℝ
  P : Matrix (Fin 3) (Fin 3) ℝ

/-- `np.clip(x, lo, hi) = np.minimum(hi, np.maximum(x, lo))`. -/
noncomputable def npClip (x lo hi : ℝ) : ℝ := min hi (max x lo)

/-- The `kalman_update` step of `kalman_update.py`.  The measurement row
`H` is produced by the Monte-Carlo `compute_measurement_gradient`
collaborator and enters the update as data; `y` is the innovation
`observed_points - expected_points` and `R` the measurement variance.
Elementwise division of `P @ H.T` by the scalar `s_val` is written as
scalar multiplication by its inverse. -/
noncomputable def kalman_update (state : KalmanPerformanceState)
    (H : Matrix (Fin 1) (Fin 3) ℝ) (y R : ℝ) : KalmanPerformanceState :=
  let P := state.P
  let S : ℝ := (H * P * H.transpose) 0 0 + R
  if |S| < 1e-15 then ⟨state.theta, state.P⟩
  else
    let K : Matrix (Fin 3) (Fin 1) ℝ := S⁻¹ • (P * H.transpose)
    let theta1 : Fin 3 → ℝ := fun i => state.theta i + K i 0 * y
    let Pnew := (1 - K * H) * P
    ⟨fun i =>
        if i = 1 then npClip (theta1 1) 0 1
        else if i = 2 then npClip (theta1 2) 0 1
        else theta1 i,
      Pnew⟩

/-- The innovation covariance scalar `S = H @ P @ H.T + R`. -/
noncomputable def kalmanS (state : KalmanPerformanceState)
    (H : Matrix (Fin 1) (Fin 3) ℝ) (R : ℝ) : ℝ :=
  (H * state.P * H.transpose) 0 0 + R

-- ===========================================================================
-- PART 2: Theorems
-- ===========================================================================
-- ---------------------------------------------------------------------------
-- Claim C1
-- ---------------------------------------------------------------------------

/-- C1: `lap_time` equals
`base_speed + downforce_sensitivity * (1 - aero_efficiency)
 + tyre_age * tyre_degradation_factor * tyre_wear_rate
 - deploy_level * ers_efficiency`
for every track, car, `tyre_age ≥ 0` and `deploy_level ∈ [0,1]`; it
raises exactly when `tyre_age < 0` or `deploy_level` is outside `[0,1]`;
and on the concrete spec scenario (downforce sensitivity 2.5, degradation
factor 0.05, base speed 80.0, aero 0.85, ers 0.8, wear 1.0) the value at
`tyre_age = 0`, `deploy_level = 0` is exactly 80.375. -/
theorem lap_time_spec (track : Track) (car : Car)
    (tyre_age deploy_level : ℝ) :
    (0 ≤ tyre_age → 0 ≤ deploy_level → deploy_level ≤ 1 →
      lap_time track car tyre_age deploy_level =
        some (car.base_speed
          + track.downforce_sensitivity * (1 - car.aero_efficiency)
          + tyre_age * track.tyre_degradation_factor * car.tyre_wear_rate
          - deploy_level * car.ers_efficiency)) ∧
    (lap_time track car tyre_age deploy_level = none ↔
      (tyre_age < 0 ∨ deploy_level < 0 ∨ 1 < deploy_level)) ∧
    lap_time scenarioTrack scenarioCar 0 0 = some 80.375 := by
  refine ⟨?_, ?_, ?_⟩
  · intro h0 h1 h2
    simp [lap_time, lapTimeFormula, not_lt.mpr h0, h1, h2]
  · constructor
    · intro h
      by_contra hc
      push_neg at hc
      obtain ⟨ha, hd0, hd1⟩ := hc
      rw [lap_time, if_neg (not_lt.mpr ha),
        if_neg (not_not_intro ⟨hd0, hd1⟩)] at h
      exact Option.noConfusion h
    · intro h
      rcases h with h | h | h
      · simp [lap_time, h]
      · have hc : ¬ (0 ≤ deploy_level ∧ deploy_level ≤ 1) := by
          intro hc; exact absurd hc.1 (not_le.mpr h)
        simp [lap_time, hc]
      · have hc : ¬ (0 ≤ deploy_level ∧ deploy_level ≤ 1) := by
          intro hc; exact absurd hc.2 (not_le.mpr h)
        simp [lap_time, hc]
  · have h : lapTimeFormula scenarioTrack scenarioCar 0 0 = 80.375 := by
      simp only [lapTimeFormula, scenarioTrack, scenarioCar]
      norm_num
    simp [lap_time, h]

/-- Witness for C1: the guarded branch evaluated at a concrete in-range
input. -/
theorem lap_time_spec_witness :
    lap_time scenarioTrack scenarioCar 2 0.5 =
      some (scenarioCar.base_speed
        + scenarioTrack.downforce_sensitivity * (1 - scenarioCar.aero_efficiency)
        + 2 * scenarioTrack.tyre_degradation_factor * scenarioCar.tyre_wear_rate
        - 0.5 * scenarioCar.ers_efficiency) :=
  (lap_time_spec scenarioTrack scenarioCar 2 0.5).1
    (by norm_num) (by norm_num) (by norm_num)

/-- C9 counterexample: for the valid car `flatCar` (ERS efficiency 0,
tyre wear rate 0) on the valid scenario track (degradation factor 0.05,
nonzero), `lap_time` is NOT strictly decreasing in the deploy level
(value at 1 is not below the value at 0) and NOT strictly increasing in
tyre age (value at age 1 is not above the value at age 0), refuting the
claim as stated. -/
theorem lap_time_monotone_counterexample :
    Track.Valid scenarioTrack ∧ Car.Valid flatCar ∧
    scenarioTrack.tyre_degradation_factor ≠ 0 ∧
    ¬ (lapTimeFormula scenarioTrack flatCar 0 1 <
        lapTimeFormula scenarioTrack flatCar 0 0) ∧
    ¬ (lapTimeFormula scenarioTrack flatCar 0 0 <
        lapTimeFormula scenarioTrack flatCar 1 0) := by
  refine ⟨?_, ?_, ?_, ?_, ?_⟩
  · refine ⟨by simp [scenarioTrack], ?_⟩
    simp only [scenarioTrack]
    norm_num
  · refine ⟨by simp [flatCar], ?_⟩
    simp only [flatCar]
    norm_num
  · simp only [scenarioTrack]; norm_num
  · simp only [lapTimeFormula, flatCar]; norm_num
  · simp only [lapTimeFormula, flatCar]; norm_num

/-- C9 (amended): for every track and car, at fixed `tyre_age ≥ 0` the
lap time is strictly decreasing in the deploy level over `[0,1]` provided
the ERS efficiency is nonzero (positive); and at fixed deploy level it is
strictly increasing in tyre age provided both the track degradation
factor and the car tyre wear rate are nonzero (positive). -/
theorem lap_time_monotone (track : Track) (car : Car)
    (tyre_age d1 d2 a1 a2 dl : ℝ) :
    (0 < car.ers_efficiency → d1 < d2 →
      lapTimeFormula track car tyre_age d2 <
        lapTimeFormula track car tyre_age d1) ∧
    (0 < track.tyre_degradation_factor → 0 < car.tyre_wear_rate →
      a1 < a2 →
      lapTimeFormula track car a1 dl < lapTimeFormula track car a2 dl) := by
  constructor
  · intro hers hd
    simp only [lapTimeFormula]
    have : d1 * car.ers_efficiency < d2 * car.ers_efficiency :=
      mul_lt_mul_of_pos_right hd hers
    linarith
  · intro htd hw ha
    simp only [lapTimeFormula]
    have hprod : 0 < track.tyre_degradation_factor * car.tyre_wear_rate :=
      mul_pos htd hw
    have : a1 * (track.tyre_degradation_factor * car.tyre_wear_rate) <
        a2 * (track.tyre_degradation_factor * car.tyre_wear_rate) :=
      mul_lt_mul_of_pos_right ha hprod
    nlinarith

/-- Witness for C9 (amended), instantiated on the concrete spec
scenario. -/
theorem lap_time_monotone_witness :
    (0 < scenarioCar.ers_efficiency → (0:ℝ) < 1 →
      lapTimeFormula scenarioTrack scenarioCar 0 1 <
        lapTimeFormula scenarioTrack scenarioCar 0 0) ∧
    (0 < scenarioTrack.tyre_degradation_factor →
      0 < scenarioCar.tyre_wear_rate → (0:ℝ) < 1 →
      lapTimeFormula scenarioTrack scenarioCar 0 0 <
        lapTimeFormula scenarioTrack scenarioCar 1 0) :=
  lap_time_monotone scenarioTrack scenarioCar 0 0 1 0 1 0

-- ---------------------------------------------------------------------------
-- Claim C8
-- ---------------------------------------------------------------------------

/-- Reduction of `applyOp` for a non-negative deploy request. -/
theorem EnergyState.applyOp_deploy (s : EnergyState) (a : ℝ) (ha : ¬ a < 0) :
    s.applyOp (.deployOp a) =
      { s with current_charge := s.current_charge - min a s.current_charge } := by
  simp [EnergyState.applyOp, EnergyState.deploy, ha]

/-- Reduction of `applyOp` for a non-negative harvest request. -/
theorem EnergyState.applyOp_harvest (s : EnergyState) (a : ℝ) (ha : ¬ a < 0) :
    s.applyOp (.harvestOp a) =
      { s with current_charge :=
          s.current_charge + min a (s.max_charge - s.current_charge) } := by
  simp [EnergyState.applyOp, EnergyState.harvest, ha]

/-- One step of `applyOp` preserves the battery invariant. -/
theorem EnergyState.applyOp_inv (s : EnergyState) (op : EnergyOp)
    (h : s.Inv) : (s.applyOp op).Inv := by
  obtain ⟨h0, h1⟩ := h
  cases op with
  | deployOp a =>
      by_cases ha : a < 0
      · simpa [EnergyState.applyOp, EnergyState.deploy, ha, EnergyState.Inv]
          using ⟨h0, h1⟩
      · rw [EnergyState.applyOp_deploy s a ha]
        push_neg at ha
        have hmin1 : min a s.current_charge ≤ s.current_charge := min_le_right _ _
        have hmin0 : 0 ≤ min a s.current_charge := le_min ha h0
        exact ⟨by simp only; linarith, by simp only; linarith⟩
  | harvestOp a =>
      by_cases ha : a < 0
      · simpa [EnergyState.applyOp, EnergyState.harvest, ha, EnergyState.Inv]
          using ⟨h0, h1⟩
      · rw [EnergyState.applyOp_harvest s a ha]
        push_neg at ha
        have hmin1 : min a (s.max_charge - s.current_charge) ≤
            s.max_charge - s.current_charge := min_le_right _ _
        have hmin0 : 0 ≤ min a (s.max_charge - s.current_charge) :=
          le_min ha (by linarith)
        exact ⟨by simp only; linarith, by simp only; linarith⟩

/-- C8: starting from a battery with `0 ≤ current_charge ≤ max_charge`,
after any finite sequence of deploy/harvest calls the invariant
`0 ≤ current_charge ≤ max_charge` still holds; `deploy(a)` with `a ≥ 0`
returns `min(a, current_charge)` and decreases the charge by that value;
`harvest(a)` with `a ≥ 0` returns `min(a, max_charge - current_charge)`
and increases the charge by that value; a negative amount to either
operation raises (returns `none`), leaving the charge unchanged. -/
theorem energy_state_spec (s : EnergyState) (ops : List EnergyOp)
    (a : ℝ) (h : s.Inv) :
    (s.runOps ops).Inv ∧
    (0 ≤ a → s.deploy a =
      some (min a s.current_charge,
        { s with current_charge := s.current_charge - min a s.current_charge })) ∧
    (0 ≤ a → s.harvest a =
      some (min a (s.max_charge - s.current_charge),
        { s with current_charge :=
            s.current_charge + min a (s.max_charge - s.current_charge) })) ∧
    (a < 0 → s.deploy a = none ∧ s.harvest a = none ∧
      ∀ op ∈ [EnergyOp.deployOp a, EnergyOp.harvestOp a],
        s.applyOp op = s) := by
  refine ⟨?_, ?_, ?_, ?_⟩
  · induction ops generalizing s with
    | nil => exact h
    | cons op rest ih =>
        exact ih _ (s.applyOp_inv op h)
  · intro ha
    simp [EnergyState.deploy, not_lt.mpr ha]
  · intro ha
    simp [EnergyState.harvest, not_lt.mpr ha]
  · intro ha
    refine ⟨by simp [EnergyState.deploy, ha], by simp [EnergyState.harvest, ha], ?_⟩
    intro op hop
    simp only [List.mem_cons, List.not_mem_nil, or_false] at hop
    rcases hop with rfl | rfl
    · simp [EnergyState.applyOp, EnergyState.deploy, ha]
    · simp [EnergyState.applyOp, EnergyState.harvest, ha]

/-- Witness for C8 at a concrete battery and call sequence. -/
theorem energy_state_spec_witness :
    EnergyState.Inv ⟨4, 4⟩ ∧
    (EnergyState.runOps ⟨4, 4⟩
      [.deployOp 1, .harvestOp 2, .deployOp (-3), .harvestOp 5]).Inv :=
  ⟨⟨by norm_num, by norm_num⟩,
    (energy_state_spec ⟨4, 4⟩
      [.deployOp 1, .harvestOp 2, .deployOp (-3), .harvestOp 5] 0
      ⟨by norm_num, by norm_num⟩).1⟩

/-- The strict-improvement scan never increases the incumbent cost. -/
theorem pitScan_fst_le (f : CompoundName → ℝ) (l : List CompoundName)
    (best : ℝ × Option CompoundName) : (pitScan f l best).1 ≤ best.1 := by
  induction l generalizing best with
  | nil => simp [pitScan]
  | cons c2 rest ih =>
      simp only [pitScan]
      by_cases h : f c2 < best.1
      · rw [if_pos h]
        exact le_trans (ih _) (le_of_lt h)
      · rw [if_neg h]
        exact ih best

/-- If the scan ends with no action recorded, nothing was ever taken: the
result is the incumbent. -/
theorem pitScan_none (f : CompoundName → ℝ) (l : List CompoundName)
    (best : ℝ × Option CompoundName) (h : (pitScan f l best).2 = none) :
    pitScan f l best = best := by
  induction l generalizing best with
  | nil => simp [pitScan]
  | cons c2 rest ih =>
      simp only [pitScan] at h ⊢
      by_cases hlt : f c2 < best.1
      · rw [if_pos hlt] at h ⊢
        have := ih _ h
        rw [this] at h
        exact absurd h (by simp)
      · rw [if_neg hlt] at h ⊢
        exact ih best h

/-- If the scan records action `c`, the resulting cost is that action
cost. -/
theorem pitScan_some (f : CompoundName → ℝ) (l : List CompoundName)
    (best : ℝ × Option CompoundName) (c : CompoundName)
    (hbest : ∀ c0, best.2 = some c0 → best.1 = f c0)
    (h : (pitScan f l best).2 = some c) : (pitScan f l best).1 = f c := by
  induction l generalizing best with
  | nil =>
      simp only [pitScan] at h ⊢
      exact hbest c h
  | cons c2 rest ih =>
      simp only [pitScan] at h ⊢
      by_cases hlt : f c2 < best.1
      · rw [if_pos hlt] at h ⊢
        refine ih _ ?_ h
        intro c0 hc0
        simp only at hc0
        rw [Option.some.injEq] at hc0
        rw [← hc0]
      · rw [if_neg hlt] at h ⊢
        exact ih best hbest h

/-- The DP cost-to-go is bounded by the cost of never pitting. -/
theorem dpBest_le_noStop (track : Track) (car : Car) (L : ℕ) :
    ∀ fuel tyre_age c, tyre_age + fuel ≤ L →
    (dpBest track car L fuel tyre_age c).1 ≤
      ∑ i ∈ Finset.range fuel, _lap_cost track car (tyre_age + i) (compoundOf c) := by
  intro fuel
  induction fuel with
  | zero => intro age c _; simp [dpBest]
  | succ fuel ih =>
      intro age c hle
      have hmin : min (age + 1) L = age + 1 := by omega
      have hcont : (dpBest track car L (fuel + 1) age c).1 ≤
          _lap_cost track car age (compoundOf c) +
            (dpBest track car L fuel (min (age + 1) L) c).1 := by
        simp only [dpBest]
        by_cases h : 0 < L - (fuel + 1) ∧ L - (fuel + 1) < L - 1
        · rw [if_pos h]
          exact pitScan_fst_le _ _ _
        · rw [if_neg h]
      have hthis := ih (age + 1) c (by omega)
      rw [hmin] at hcont
      have hsum : ∑ i ∈ Finset.range (fuel + 1),
          _lap_cost track car (age + i) (compoundOf c) =
          _lap_cost track car age (compoundOf c) +
            ∑ i ∈ Finset.range fuel,
              _lap_cost track car (age + 1 + i) (compoundOf c) := by
        rw [Finset.sum_range_succ']
        have harg : (∑ i ∈ Finset.range fuel,
            _lap_cost track car (age + (i + 1)) (compoundOf c)) =
            ∑ i ∈ Finset.range fuel,
              _lap_cost track car (age + 1 + i) (compoundOf c) :=
          Finset.sum_congr rfl fun i _ => by
            rw [show age + (i + 1) = age + 1 + i from by omega]
        rw [harg, Nat.add_zero]
        exact add_comm _ _
      rw [hsum]
      linarith

/-- Every pit lap emitted by the forward pass from remaining-laps `fuel`
is at least `L - fuel + 1`. -/
theorem dpExtract_pit_ge (track : Track) (car : Car) (L : ℕ) :
    ∀ fuel tyre_age c p, p ∈ (dpExtract track car L fuel tyre_age c).1 →
      L - fuel + 1 ≤ p := by
  intro fuel
  induction fuel with
  | zero => intro age c p hp; simp [dpExtract] at hp
  | succ fuel ih =>
      intro age c p hp
      simp only [dpExtract] at hp
      cases haction : (dpBest track car L (fuel + 1) age c).2 with
      | some c2 =>
          rw [haction] at hp
          simp only [List.mem_cons] at hp
          rcases hp with rfl | hp
          · omega
          · have := ih 1 c2 p hp
            omega
      | none =>
          rw [haction] at hp
          have := ih (age + 1) c p hp
          omega

/-- When the stored action is to continue, the cost-to-go is the
continue cost. -/
theorem dpBest_none_eq (track : Track) (car : Car) (L fuel tyre_age : ℕ)
    (c : CompoundName)
    (h : (dpBest track car L (fuel + 1) tyre_age c).2 = none) :
    (dpBest track car L (fuel + 1) tyre_age c).1 =
      _lap_cost track car tyre_age (compoundOf c) +
        (dpBest track car L fuel (min (tyre_age + 1) L) c).1 := by
  simp only [dpBest] at h ⊢
  by_cases hcond : 0 < L - (fuel + 1) ∧ L - (fuel + 1) < L - 1
  · rw [if_pos hcond] at h ⊢
    rw [pitScan_none _ _ _ h]
  · rw [if_neg hcond]

/-- When the stored action is to pit to `c2`, the cost-to-go is the pit
cost for `c2`. -/
theorem dpBest_some_eq (track : Track) (car : Car) (L fuel tyre_age : ℕ)
    (c c2 : CompoundName)
    (h : (dpBest track car L (fuel + 1) tyre_age c).2 = some c2) :
    (dpBest track car L (fuel + 1) tyre_age c).1 =
      PIT_LOSS + _lap_cost track car 0 (compoundOf c2) +
        (dpBest track car L fuel 1 c2).1 := by
  simp only [dpBest] at h ⊢
  by_cases hcond : 0 < L - (fuel + 1) ∧ L - (fuel + 1) < L - 1
  · rw [if_pos hcond] at h ⊢
    exact pitScan_some _ _ _ _ (fun c0 hc0 => by simp at hc0) h
  · rw [if_neg hcond] at h
    exact absurd h (by simp)

/-- A schedule with no pit stops costs the sum of the per-lap costs at
increasing tyre age, for any trailing compound list. -/
theorem dpEvalSched_noPit (track : Track) (car : Car) (L : ℕ) :
    ∀ fuel tyre_age cur cs,
    dpEvalSched track car L fuel tyre_age cur [] cs =
      ∑ i ∈ Finset.range fuel, _lap_cost track car (tyre_age + i) cur := by
  intro fuel
  induction fuel with
  | zero => intro age cur cs; simp [dpEvalSched]
  | succ fuel ih =>
      intro age cur cs
      rw [show dpEvalSched track car L (fuel + 1) age cur [] cs =
          _lap_cost track car age cur +
            dpEvalSched track car L fuel (age + 1) cur [] cs from rfl]
      rw [ih]
      rw [Finset.sum_range_succ']
      have harg : (∑ i ∈ Finset.range fuel,
          _lap_cost track car (age + (i + 1)) cur) =
          ∑ i ∈ Finset.range fuel, _lap_cost track car (age + 1 + i) cur :=
        Finset.sum_congr rfl fun i _ => by
          rw [show age + (i + 1) = age + 1 + i from by omega]
      rw [harg, Nat.add_zero]
      exact add_comm _ _

/-- Replaying the extracted policy under the optimiser cost model
reproduces the DP cost-to-go. -/
theorem dpEvalSched_extract (track : Track) (car : Car) (L : ℕ) :
    ∀ fuel tyre_age c, fuel ≤ L → tyre_age ≤ L - fuel →
    dpEvalSched track car L fuel tyre_age (compoundOf c)
        (dpExtract track car L fuel tyre_age c).1
        ((dpExtract track car L fuel tyre_age c).2.map compoundOf) =
      (dpBest track car L fuel tyre_age c).1 := by
  intro fuel
  induction fuel with
  | zero => intro age c _ _; simp [dpExtract, dpEvalSched, dpBest]
  | succ fuel ih =>
      intro age c hfuel hage
      cases haction : (dpBest track car L (fuel + 1) age c).2 with
      | some c2 =>
          have hx : dpExtract track car L (fuel + 1) age c =
              ((L - (fuel + 1) + 1) :: (dpExtract track car L fuel 1 c2).1,
                c2 :: (dpExtract track car L fuel 1 c2).2) := by
            simp only [dpExtract, haction]
          rw [hx]
          simp only [List.map_cons]
          rw [show dpEvalSched track car L (fuel + 1) age (compoundOf c)
              ((L - (fuel + 1) + 1) :: (dpExtract track car L fuel 1 c2).1)
              (compoundOf c2 :: ((dpExtract track car L fuel 1 c2).2.map compoundOf)) =
              if L - (fuel + 1) + 1 = L - (fuel + 1) + 1 then
                PIT_LOSS + _lap_cost track car 0 (compoundOf c2) +
                  dpEvalSched track car L fuel 1 (compoundOf c2)
                    (dpExtract track car L fuel 1 c2).1
                    ((dpExtract track car L fuel 1 c2).2.map compoundOf)
              else
                _lap_cost track car age (compoundOf c) +
                  dpEvalSched track car L fuel (age + 1) (compoundOf c)
                    ((L - (fuel + 1) + 1) :: (dpExtract track car L fuel 1 c2).1)
                    (compoundOf c2 :: ((dpExtract track car L fuel 1 c2).2.map compoundOf))
              from rfl]
          rw [if_pos rfl]
          rw [ih 1 c2 (by omega) (by omega)]
          exact (dpBest_some_eq track car L fuel age c c2 haction).symm
      | none =>
          have hx : dpExtract track car L (fuel + 1) age c =
              dpExtract track car L fuel (age + 1) c := by
            simp only [dpExtract, haction]
          rw [hx]
          have hrec : dpEvalSched track car L (fuel + 1) age (compoundOf c)
              (dpExtract track car L fuel (age + 1) c).1
              ((dpExtract track car L fuel (age + 1) c).2.map compoundOf) =
              _lap_cost track car age (compoundOf c) +
                dpEvalSched track car L fuel (age + 1) (compoundOf c)
                  (dpExtract track car L fuel (age + 1) c).1
                  ((dpExtract track car L fuel (age + 1) c).2.map compoundOf) := by
            cases hps : (dpExtract track car L fuel (age + 1) c).1 with
            | nil =>
                cases hcs : (dpExtract track car L fuel (age + 1) c).2 with
                | nil => rfl
                | cons c2 cs2 => rfl
            | cons p ps2 =>
                have hpge : L - fuel + 1 ≤ p := by
                  refine dpExtract_pit_ge track car L fuel (age + 1) c p ?_
                  rw [hps]; exact List.mem_cons_self _ _
                have hpne : p ≠ L - (fuel + 1) + 1 := by omega
                cases hcs : (dpExtract track car L fuel (age + 1) c).2 with
                | nil => rfl
                | cons c2 cs2 =>
                    simp only [List.map_cons]
                    rw [show dpEvalSched track car L (fuel + 1) age (compoundOf c)
                        (p :: ps2) (compoundOf c2 :: cs2.map compoundOf) =
                        if p = L - (fuel + 1) + 1 then
                          PIT_LOSS + _lap_cost track car 0 (compoundOf c2) +
                            dpEvalSched track car L fuel 1 (compoundOf c2) ps2
                              (cs2.map compoundOf)
                        else
                          _lap_cost track car age (compoundOf c) +
                            dpEvalSched track car L fuel (age + 1) (compoundOf c)
                              (p :: ps2) (compoundOf c2 :: cs2.map compoundOf)
                        from rfl]
                    rw [if_neg hpne]
          rw [hrec]
          rw [ih (age + 1) c (by omega) (by omega)]
          have hmin : min (age + 1) L = age + 1 := by omega
          have := dpBest_none_eq track car L fuel age c haction
          rw [hmin] at this
          exact this.symm

/-- C6: for a track with tyre degradation factor 0.40 and a 20-lap race,
any valid car and any starting compound, the total race time of the
strategy returned by the DP pit optimiser, evaluated under the optimiser
cost model (per-lap `_lap_cost` plus `PIT_LOSS` per stop), is at most
the total time of the naive zero-stop strategy that stays on the
starting compound for all 20 laps. -/
theorem dp_beats_zero_stop (track : Track) (car : Car) (c0 : CompoundName)
    (htdf : track.tyre_degradation_factor = 0.4) (hcar : Car.Valid car) :
    dpStrategyCost track car 20 (compute_optimal_strategy_dp track car 20 c0) ≤
      dpStrategyCost track car 20 (zeroStopStrategy c0) := by
  have h1 : dpStrategyCost track car 20 (compute_optimal_strategy_dp track car 20 c0) =
      dpEvalSched track car 20 20 0 (compoundOf c0)
        (dpExtract track car 20 20 0 c0).1
        ((dpExtract track car 20 20 0 c0).2.map compoundOf) := rfl
  have h2 : dpStrategyCost track car 20 (zeroStopStrategy c0) =
      dpEvalSched track car 20 20 0 (compoundOf c0) [] [] := rfl
  rw [h1, h2, dpEvalSched_extract track car 20 20 0 c0 (by omega) (by omega),
    dpEvalSched_noPit]
  have := dpBest_le_noStop track car 20 20 0 c0 (by omega)
  simpa using this

/-- Witness for C6, on a concrete high-degradation track and valid car. -/
theorem dp_beats_zero_stop_witness :
    (({ name := "HighDeg", straight_ratio := 0.5, overtake_coefficient := 0.5,
        energy_harvest_factor := 0.5, tyre_degradation_factor := 0.4,
        downforce_sensitivity := 1.0 } : Track).tyre_degradation_factor = 0.4) ∧
    Car.Valid scenarioCar ∧
    dpStrategyCost
        { name := "HighDeg", straight_ratio := 0.5, overtake_coefficient := 0.5,
          energy_harvest_factor := 0.5, tyre_degradation_factor := 0.4,
          downforce_sensitivity := 1.0 } scenarioCar 20
        (compute_optimal_strategy_dp
          { name := "HighDeg", straight_ratio := 0.5, overtake_coefficient := 0.5,
            energy_harvest_factor := 0.5, tyre_degradation_factor := 0.4,
            downforce_sensitivity := 1.0 } scenarioCar 20 CompoundName.medium) ≤
      dpStrategyCost
        { name := "HighDeg", straight_ratio := 0.5, overtake_coefficient := 0.5,
          energy_harvest_factor := 0.5, tyre_degradation_factor := 0.4,
          downforce_sensitivity := 1.0 } scenarioCar 20
        (zeroStopStrategy CompoundName.medium) := by
  have hcar : Car.Valid scenarioCar := by
    refine ⟨by simp [scenarioCar], ?_⟩
    simp only [scenarioCar]
    norm_num
  exact ⟨rfl, hcar, dp_beats_zero_stop _ scenarioCar CompoundName.medium rfl hcar⟩

/-- C4 counterexample: with the default `base_seed = 100`, in a run with
`seasons = 1001` and a 2-race calendar, the two distinct index pairs
`(1000, 0)` and `(0, 1)` both occur and receive the same race seed, so
the scheme is not collision-free as claimed. -/
theorem race_seed_collision :
    ((1000, 0), race_seed 100 1000 0) ∈ seasonRaceSeeds 100 1001 2 ∧
    ((0, 1), race_seed 100 0 1) ∈ seasonRaceSeeds 100 1001 2 ∧
    ((1000, 0) : ℕ × ℕ) ≠ (0, 1) ∧
    race_seed 100 1000 0 = race_seed 100 0 1 := by
  refine ⟨?_, ?_, by decide, by decide⟩
  · simp only [seasonRaceSeeds, List.mem_flatMap, List.mem_map, List.mem_range]
    exact ⟨1000, by norm_num, 0, by norm_num, rfl⟩
  · simp only [seasonRaceSeeds, List.mem_flatMap, List.mem_map, List.mem_range]
    exact ⟨0, by norm_num, 1, by norm_num, rfl⟩

/-- C4 (amended): the seed of race `race_index` in season `season_index`
is exactly `(base_seed + season_index) + race_index * 1000` (membership
in the loop-generated seed list is characterised by this formula), and
the scheme is collision-free provided the run has at most 1000 seasons:
whenever both season indices are below 1000, distinct
`(season_index, race_index)` pairs receive distinct seeds.  (For more
than 1000 seasons and at least two races, collisions occur, as the
counterexample shows.) -/
theorem race_seed_spec (base_seed : ℤ) (seasons races s r s1 r1 s2 r2 : ℕ)
    (z : ℤ) :
    (((s, r), z) ∈ seasonRaceSeeds base_seed seasons races ↔
      (s < seasons ∧ r < races ∧ z = (base_seed + s) + r * 1000)) ∧
    (s1 < 1000 → s2 < 1000 → (s1, r1) ≠ (s2, r2) →
      race_seed base_seed s1 r1 ≠ race_seed base_seed s2 r2) := by
  constructor
  · simp only [seasonRaceSeeds, List.mem_flatMap, List.mem_map, List.mem_range,
      race_seed]
    constructor
    · rintro ⟨a, ha, b, hb, h⟩
      obtain ⟨h1, h2⟩ := Prod.mk.injEq .. ▸ h
      obtain ⟨ha1, hb1⟩ := Prod.mk.injEq .. ▸ h1
      subst ha1; subst hb1
      exact ⟨ha, hb, h2.symm⟩
    · rintro ⟨hs, hr, hz⟩
      exact ⟨s, hs, r, hr, by rw [hz]⟩
  · intro hs1 hs2 hne heq
    simp only [race_seed] at heq
    have : s1 + 1000 * r1 = s2 + 1000 * r2 := by
      have := heq
      omega
    have h1 : s1 = s2 ∧ r1 = r2 := by omega
    exact hne (by rw [h1.1, h1.2])

/-- Witness for C4 (amended), at concrete indices. -/
theorem race_seed_spec_witness :
    (((2, 3), race_seed 100 2 3) ∈ seasonRaceSeeds 100 5 24 ↔
      (2 < 5 ∧ 3 < 24 ∧ race_seed 100 2 3 = (100 + 2) + 3 * 1000)) ∧
    race_seed 100 2 3 ≠ race_seed 100 3 2 :=
  ⟨(race_seed_spec 100 5 24 2 3 2 3 3 2 (race_seed 100 2 3)).1,
    (race_seed_spec 100 5 24 2 3 2 3 3 2 (race_seed 100 2 3)).2
      (by norm_num) (by norm_num) (by decide)⟩

/-- The quadratic form `H @ P @ H.T` equals the dot product of the row of
`H` with `P` applied to it. -/
theorem kalman_quadform (P : Matrix (Fin 3) (Fin 3) ℝ)
    (H : Matrix (Fin 1) (Fin 3) ℝ) :
    (H * P * H.transpose) 0 0 =
      Matrix.dotProduct (fun j => H 0 j) (P.mulVec (fun j => H 0 j)) := by
  simp only [Matrix.mul_apply, Matrix.mulVec, Matrix.dotProduct,
    Matrix.transpose_apply, Fin.sum_univ_three]
  ring

/-- C5: for every non-degenerate `kalman_update` (`|S| ≥ 1e-15`) from a
well-formed prior (symmetric positive semi-definite covariance `P`,
non-negative measurement variance `R`), the trace of the returned
covariance `(I - K·H)·P` is at most `trace(P) + 1e-12`, and the
`ers_efficiency` (index 1) and `reliability` (index 2) components of the
returned mean lie in `[0, 1]`. -/
theorem kalman_update_spec (st : KalmanPerformanceState)
    (H : Matrix (Fin 1) (Fin 3) ℝ) (y R : ℝ)
    (hsymm : st.P.IsSymm)
    (hpsd : ∀ x : Fin 3 → ℝ, 0 ≤ Matrix.dotProduct x (st.P.mulVec x))
    (hR : 0 ≤ R) (hS : 1e-15 ≤ |kalmanS st H R|) :
    (kalman_update st H y R).P.trace ≤ st.P.trace + 1e-12 ∧
    (0 ≤ (kalman_update st H y R).theta 1 ∧
      (kalman_update st H y R).theta 1 ≤ 1) ∧
    (0 ≤ (kalman_update st H y R).theta 2 ∧
      (kalman_update st H y R).theta 2 ≤ 1) := by
  have hquad : 0 ≤ (H * st.P * H.transpose) 0 0 := by
    rw [kalman_quadform]
    exact hpsd _
  have hSnonneg : 0 ≤ kalmanS st H R := by
    simp only [kalmanS]
    linarith
  have hSpos : (0:ℝ) < kalmanS st H R := by
    have := abs_of_nonneg hSnonneg ▸ hS
    linarith [this]
  have hguard : ¬ |(H * st.P * H.transpose) 0 0 + R| < 1e-15 := by
    have : (H * st.P * H.transpose) 0 0 + R = kalmanS st H R := rfl
    rw [this]
    exact not_lt.mpr hS
  have hupd : kalman_update st H y R =
      ⟨fun i =>
          if i = 1 then
            npClip (st.theta 1 +
              ((kalmanS st H R)⁻¹ • (st.P * H.transpose)) 1 0 * y) 0 1
          else if i = 2 then
            npClip (st.theta 2 +
              ((kalmanS st H R)⁻¹ • (st.P * H.transpose)) 2 0 * y) 0 1
          else st.theta i +
            ((kalmanS st H R)⁻¹ • (st.P * H.transpose)) i 0 * y,
        (1 - ((kalmanS st H R)⁻¹ • (st.P * H.transpose)) * H) * st.P⟩ := by
    simp only [kalman_update, kalmanS, hguard, if_false]
  refine ⟨?_, ?_, ?_⟩
  · rw [hupd]
    simp only
    set S := kalmanS st H R with hSdef
    set K : Matrix (Fin 3) (Fin 1) ℝ := S⁻¹ • (st.P * H.transpose) with hK
    have hsub : (1 - K * H) * st.P = st.P - K * H * st.P := by
      rw [sub_mul, one_mul]
    rw [hsub, Matrix.trace_sub]
    have htr : (K * H * st.P).trace =
        S⁻¹ * ((H * st.P) * (st.P * H.transpose)).trace := by
      rw [hK]
      rw [Matrix.smul_mul, Matrix.smul_mul, Matrix.trace_smul, smul_eq_mul]
      congr 1
      rw [Matrix.mul_assoc]
      exact Matrix.trace_mul_comm (st.P * H.transpose) (H * st.P)
    have hsum : ((H * st.P) * (st.P * H.transpose)).trace =
        ∑ i : Fin 1, ∑ j : Fin 3, (H * st.P) i j * (st.P * H.transpose) j i := by
      simp [Matrix.trace, Matrix.diag, Matrix.mul_apply]
    have hent : ∀ j : Fin 3, (st.P * H.transpose) j 0 = (H * st.P) 0 j := by
      intro j
      simp only [Matrix.mul_apply, Matrix.transpose_apply]
      refine Finset.sum_congr rfl fun k _ => ?_
      rw [hsymm.apply j k]
      ring
    have hnn : 0 ≤ ((H * st.P) * (st.P * H.transpose)).trace := by
      rw [hsum]
      rw [Fin.sum_univ_one]
      refine Finset.sum_nonneg fun j _ => ?_
      rw [hent j]
      exact mul_self_nonneg _
    have hdrop : 0 ≤ (K * H * st.P).trace := by
      rw [htr]
      exact mul_nonneg (inv_nonneg.mpr (le_of_lt hSpos)) hnn
    linarith
  · rw [hupd]
    simp only [if_pos rfl]
    constructor
    · exact le_min (by norm_num) (le_max_right _ _)
    · exact min_le_left _ _
  · rw [hupd]
    have h2ne1 : (2 : Fin 3) ≠ 1 := by decide
    simp only [if_neg h2ne1, if_pos rfl]
    constructor
    · exact le_min (by norm_num) (le_max_right _ _)
    · exact min_le_left _ _

/-- Witness for C5: a concrete prior (identity covariance, mean 0.5),
all-ones measurement row, unit measurement variance. -/
theorem kalman_update_spec_witness :
    (Matrix.IsSymm (1 : Matrix (Fin 3) (Fin 3) ℝ)) ∧
    ((kalman_update ⟨fun _ => 0.5, 1⟩ (Matrix.of fun _ _ => 1) 0 1).P.trace ≤
      (1 : Matrix (Fin 3) (Fin 3) ℝ).trace + 1e-12) := by
  have hpsd : ∀ x : Fin 3 → ℝ,
      0 ≤ Matrix.dotProduct x ((1 : Matrix (Fin 3) (Fin 3) ℝ).mulVec x) := by
    intro x
    rw [Matrix.one_mulVec]
    exact Finset.sum_nonneg fun i _ => mul_self_nonneg (x i)
  have hS : (1e-15 : ℝ) ≤
      |kalmanS ⟨fun _ => 0.5, 1⟩ (Matrix.of fun _ _ => 1) 1| := by
    have : kalmanS ⟨fun _ => 0.5, 1⟩ (Matrix.of fun _ _ => 1) 1 = 4 := by
      simp [kalmanS, Matrix.mul_apply, Fin.sum_univ_three, Matrix.one_apply]
      norm_num
    rw [this]
    norm_num
  exact ⟨Matrix.isSymm_one,
    (kalman_update_spec ⟨fun _ => 0.5, 1⟩ (Matrix.of fun _ _ => 1) 0 1
      Matrix.isSymm_one hpsd (by norm_num) hS).1⟩

-- ---------------------------------------------------------------------------
-- Stint search feasibility (towards claim C10)
-- ---------------------------------------------------------------------------

/-- `physics.lap_time` succeeds on in-range inputs. -/
theorem lap_time_pos_eq (track : Track) (car : Car) {ta dl : ℝ}
    (h0 : 0 ≤ ta) (h1 : 0 ≤ dl) (h2 : dl ≤ 1) :
    lap_time track car ta dl = some (lapTimeFormula track car ta dl) := by
  simp [lap_time, not_lt.mpr h0, h1, h2]

/-- Reduction of `EnergyState.deploy` for a non-negative request. -/
theorem EnergyState.deploy_eq (s : EnergyState) (a : ℝ) (ha : 0 ≤ a) :
    s.deploy a = some (min a s.current_charge,
      { s with current_charge := s.current_charge - min a s.current_charge }) := by
  simp [EnergyState.deploy, not_lt.mpr ha]

/-- Reduction of `EnergyState.harvest` for a non-negative request. -/
theorem EnergyState.harvest_eq (s : EnergyState) (a : ℝ) (ha : 0 ≤ a) :
    s.harvest a = some (min a (s.max_charge - s.current_charge),
      { s with current_charge :=
          s.current_charge + min a (s.max_charge - s.current_charge) }) := by
  simp [EnergyState.harvest, not_lt.mpr ha]

/-- The battery invariant survives a non-negative harvest. -/
theorem EnergyState.inv_after_harvest (s : EnergyState) (a : ℝ) (ha : 0 ≤ a)
    (h : s.Inv) :
    EnergyState.Inv { s with current_charge :=
        s.current_charge + min a (s.max_charge - s.current_charge) } := by
  have h2 := s.applyOp_inv (.harvestOp a) h
  rwa [s.applyOp_harvest a (not_lt.mpr ha)] at h2

/-- The battery invariant survives a non-negative deploy. -/
theorem EnergyState.inv_after_deploy (s : EnergyState) (a : ℝ) (ha : 0 ≤ a)
    (h : s.Inv) :
    EnergyState.Inv { s with current_charge :=
        s.current_charge - min a s.current_charge } := by
  have h2 := s.applyOp_inv (.deployOp a) h
  rwa [s.applyOp_deploy a (not_lt.mpr ha)] at h2

/-- Under a well-formed strategy and battery, the stint lap loop never
raises. -/
theorem stintSteps_some (track : Track) (car : Car) (strategy : Strategy)
    (hh : 0 ≤ track.energy_harvest_factor * strategy.harvest_level)
    (hd0 : 0 ≤ strategy.deploy_level) (hd1 : strategy.deploy_level ≤ 1) :
    ∀ (n : ℕ) (energy : EnergyState) (tyre_age : ℕ), energy.Inv →
    ∃ ts, stintSteps track car strategy n energy tyre_age = some ts := by
  intro n
  induction n with
  | zero => intro energy age _; exact ⟨[], rfl⟩
  | succ n ih =>
      intro energy age hinv
      have h1 := energy.harvest_eq
        (track.energy_harvest_factor * strategy.harvest_level) hh
      set e1 : EnergyState := ⟨energy.current_charge +
        min (track.energy_harvest_factor * strategy.harvest_level)
          (energy.max_charge - energy.current_charge), energy.max_charge⟩ with he1
      have hinv1 : e1.Inv := energy.inv_after_harvest _ hh hinv
      have h2 := e1.deploy_eq strategy.deploy_level hd0
      set actual := min strategy.deploy_level e1.current_charge with hact
      set e2 : EnergyState := ⟨e1.current_charge - actual, e1.max_charge⟩ with he2
      have hinv2 : e2.Inv := e1.inv_after_deploy _ hd0 hinv1
      have hact0 : 0 ≤ actual := le_min hd0 hinv1.1
      have hact1 : actual ≤ 1 := le_trans (min_le_left _ _) hd1
      have h3 := lap_time_pos_eq track car
        (Nat.cast_nonneg age : (0:ℝ) ≤ (age : ℝ)) hact0 hact1
      obtain ⟨ts, hts⟩ := ih e2 (age + 1) hinv2
      refine ⟨lapTimeFormula track car (age : ℝ) actual :: ts, ?_⟩
      simp only [stintSteps, h1, h2, h3, hts]

/-- `simulate_stint` succeeds for at least one lap under a valid track,
non-negative wear rate and well-formed strategy. -/
theorem simulate_stint_some (track : Track) (car : Car) (strategy : Strategy)
    (laps : ℕ) (hlaps : 1 ≤ laps)
    (hh : 0 ≤ track.energy_harvest_factor * strategy.harvest_level)
    (hw : 0 ≤ car.tyre_wear_rate)
    (hd0 : 0 ≤ strategy.deploy_level) (hd1 : strategy.deploy_level ≤ 1) :
    ∃ t, simulate_stint track car strategy laps = some t := by
  obtain ⟨ts, hts⟩ := stintSteps_some track car strategy hh hd0 hd1 laps
    ⟨4, 4⟩ 0 ⟨by norm_num, by norm_num⟩
  refine ⟨ts.sum, ?_⟩
  simp only [simulate_stint, if_neg (by omega : ¬ laps < 1),
    if_neg (not_lt.mpr hw), hts]
  rfl

/-- The constant-deploy scan returns a defined result carrying any
property shared by all candidate strategies and the incumbent. -/
theorem bestDeployScan_prop (track : Track) (car : Car) (laps : ℕ)
    (Q : Strategy → Prop) :
    ∀ (levels : List ℝ) (best : Option (Strategy × ℝ)),
    (∀ dl ∈ levels, ∃ t, simulate_stint track car (constStrategy dl) laps = some t) →
    (∀ dl ∈ levels, Q (constStrategy dl)) →
    (∀ bs bt, best = some (bs, bt) → Q bs) →
    ∃ r, bestDeployScan track car laps levels best = some r ∧
      (∀ bs bt, r = some (bs, bt) → Q bs) ∧
      ((levels ≠ [] ∨ best ≠ none) → r ≠ none) := by
  intro levels
  induction levels with
  | nil =>
      intro best _ _ hQ
      refine ⟨best, rfl, hQ, ?_⟩
      rintro (h | h)
      · exact absurd rfl h
      · exact h
  | cons dl rest ih =>
      intro best hsims hQs hQ
      obtain ⟨t, ht⟩ := hsims dl (List.mem_cons_self _ _)
      have hQdl : Q (constStrategy dl) := hQs dl (List.mem_cons_self _ _)
      cases best with
      | none =>
          obtain ⟨r, hr, hrQ, hrn⟩ := ih (some (constStrategy dl, t))
            (fun d hd => hsims d (List.mem_cons_of_mem _ hd))
            (fun d hd => hQs d (List.mem_cons_of_mem _ hd))
            (by rintro bs bt h; rw [Option.some.injEq] at h
                rw [show bs = constStrategy dl from congrArg Prod.fst h.symm]
                exact hQdl)
          refine ⟨r, ?_, hrQ, fun _ => hrn (Or.inr (by simp))⟩
          simpa only [bestDeployScan, ht] using hr
      | some p =>
          obtain ⟨bs, bt⟩ := p
          have hQbs : Q bs := hQ bs bt rfl
          by_cases hlt : t < bt
          · obtain ⟨r, hr, hrQ, hrn⟩ := ih (some (constStrategy dl, t))
              (fun d hd => hsims d (List.mem_cons_of_mem _ hd))
              (fun d hd => hQs d (List.mem_cons_of_mem _ hd))
              (by rintro bs2 bt2 h; rw [Option.some.injEq] at h
                  rw [show bs2 = constStrategy dl from congrArg Prod.fst h.symm]
                  exact hQdl)
            refine ⟨r, ?_, hrQ, fun _ => hrn (Or.inr (by simp))⟩
            simpa only [bestDeployScan, ht, if_pos hlt] using hr
          · obtain ⟨r, hr, hrQ, hrn⟩ := ih (some (bs, bt))
              (fun d hd => hsims d (List.mem_cons_of_mem _ hd))
              (fun d hd => hQs d (List.mem_cons_of_mem _ hd))
              (by rintro bs2 bt2 h; rw [Option.some.injEq] at h
                  rw [show bs2 = bs from congrArg Prod.fst h.symm]
                  exact hQbs)
            refine ⟨r, ?_, hrQ, fun _ => hrn (Or.inr (by simp))⟩
            simpa only [bestDeployScan, ht, if_neg hlt] using hr

/-- Under a valid track and car, `find_best_constant_deploy` returns a
strategy with deploy level in `[0, 0.8]` and harvest level 1. -/
theorem find_best_constant_deploy_some (track : Track) (car : Car)
    (laps : ℕ) (htr : Track.Valid track) (hcar : Car.Valid car)
    (hlaps : 1 ≤ laps) :
    ∃ s t, find_best_constant_deploy track car laps = some (s, t) ∧
      0 ≤ s.deploy_level ∧ s.deploy_level ≤ 1 ∧ s.harvest_level = 1 := by
  have hehf : 0 ≤ track.energy_harvest_factor := htr.2.2.2.2.2.1
  have hw : 0 ≤ car.tyre_wear_rate := hcar.2.2.2.2.2.2.1
  have hsims : ∀ dl ∈ ([0, 0.2, 0.4, 0.6, 0.8] : List ℝ),
      ∃ t, simulate_stint track car (constStrategy dl) laps = some t := by
    intro dl hdl
    have hd : 0 ≤ dl ∧ dl ≤ 1 := by
      fin_cases hdl <;> norm_num
    exact simulate_stint_some track car (constStrategy dl) laps hlaps
      (by simpa [constStrategy] using hehf) hw
      (by simpa [constStrategy] using hd.1)
      (by simpa [constStrategy] using hd.2)
  have hQs : ∀ dl ∈ ([0, 0.2, 0.4, 0.6, 0.8] : List ℝ),
      (0 ≤ (constStrategy dl).deploy_level ∧
        (constStrategy dl).deploy_level ≤ 1 ∧
        (constStrategy dl).harvest_level = 1) := by
    intro dl hdl
    have hd : 0 ≤ dl ∧ dl ≤ 1 := by
      fin_cases hdl <;> norm_num
    exact ⟨by simpa [constStrategy] using hd.1,
      by simpa [constStrategy] using hd.2, rfl⟩
  obtain ⟨r, hr, hrQ, hrn⟩ := bestDeployScan_prop track car laps
    (fun s => 0 ≤ s.deploy_level ∧ s.deploy_level ≤ 1 ∧ s.harvest_level = 1)
    [0, 0.2, 0.4, 0.6, 0.8] none hsims hQs (by rintro bs bt ⟨⟩)
  have hrne : r ≠ none := hrn (Or.inl (by simp))
  cases r with
  | none => exact absurd rfl hrne
  | some p =>
      obtain ⟨bs, bt⟩ := p
      refine ⟨bs, bt, ?_, hrQ bs bt rfl⟩
      simp only [find_best_constant_deploy, hr]

/-- Under well-formed levels, the compound-stint lap loop never raises. -/
theorem compoundStintSteps_some (track : Track) (car : Car)
    (compound : TyreCompound) (deploy_level harvest_level : ℝ)
    (hh : 0 ≤ track.energy_harvest_factor * harvest_level)
    (hd0 : 0 ≤ deploy_level) (hd1 : deploy_level ≤ 1) :
    ∀ (n : ℕ) (energy : EnergyState) (tyre_age : ℕ), energy.Inv →
    ∃ t, compoundStintSteps track car compound deploy_level harvest_level
      n energy tyre_age = some t := by
  intro n
  induction n with
  | zero => intro energy age _; exact ⟨0, rfl⟩
  | succ n ih =>
      intro energy age hinv
      have h1 := energy.harvest_eq
        (track.energy_harvest_factor * harvest_level) hh
      set e1 : EnergyState := ⟨energy.current_charge +
        min (track.energy_harvest_factor * harvest_level)
          (energy.max_charge - energy.current_charge), energy.max_charge⟩ with he1
      have hinv1 : e1.Inv := energy.inv_after_harvest _ hh hinv
      have h2 := e1.deploy_eq deploy_level hd0
      set actual := min deploy_level e1.current_charge with hact
      set e2 : EnergyState := ⟨e1.current_charge - actual, e1.max_charge⟩ with he2
      have hinv2 : e2.Inv := e1.inv_after_deploy _ hd0 hinv1
      have hact0 : 0 ≤ actual := le_min hd0 hinv1.1
      have hact1 : actual ≤ 1 := le_trans (min_le_left _ _) hd1
      have h3 := lap_time_pos_eq track car (le_refl (0:ℝ)) hact0 hact1
      obtain ⟨t, ht⟩ := ih e2 (age + 1) hinv2
      refine ⟨(lapTimeFormula track car 0 actual
        + (age : ℝ) * track.tyre_degradation_factor * car.tyre_wear_rate
            * compound.degradation_rate
        + compound.base_pace_delta) + t, ?_⟩
      simp only [compoundStintSteps, h1, h2, h3, ht]

/-- `_simulate_compound_stint` never raises under a valid track,
non-negative wear and well-formed levels. -/
theorem simulate_compound_stint_some (track : Track) (car : Car)
    (laps : ℕ) (compound : TyreCompound) (deploy_level harvest_level : ℝ)
    (hh : 0 ≤ track.energy_harvest_factor * harvest_level)
    (hw : 0 ≤ car.tyre_wear_rate)
    (hd0 : 0 ≤ deploy_level) (hd1 : deploy_level ≤ 1) :
    ∃ t, _simulate_compound_stint track car laps compound deploy_level
      harvest_level = some t := by
  obtain ⟨t, ht⟩ := compoundStintSteps_some track car compound deploy_level
    harvest_level hh hd0 hd1 laps ⟨4, 4⟩ 0 ⟨by norm_num, by norm_num⟩
  refine ⟨t, ?_⟩
  simp only [_simulate_compound_stint, if_neg (not_lt.mpr hw), ht]

/-- Every one-stop candidate evaluation succeeds and carries exactly one
pit stop. -/
theorem oneStopCands_spec (track : Track) (car : Car) (total_laps : ℕ)
    (pit_loss deploy harvest : ℝ)
    (hh : 0 ≤ track.energy_harvest_factor * harvest)
    (hw : 0 ≤ car.tyre_wear_rate) (hd0 : 0 ≤ deploy) (hd1 : deploy ≤ 1) :
    ∀ x ∈ oneStopCands track car total_laps pit_loss deploy harvest,
      ∃ t s, x = some (t, s) ∧ s.pit_laps.length = 1 := by
  intro x hx
  simp only [oneStopCands, List.mem_flatMap] at hx
  obtain ⟨off, _, hx⟩ := hx
  by_cases hcond : (max 2 (min ((total_laps : ℤ) - 1) ((total_laps : ℤ) / 2)) + off < 2
      ∨ (total_laps : ℤ) ≤ max 2 (min ((total_laps : ℤ) - 1) ((total_laps : ℤ) / 2)) + off)
  · rw [if_pos hcond] at hx
    exact absurd hx (List.not_mem_nil x)
  · rw [if_neg hcond] at hx
    simp only [List.mem_flatMap, List.mem_map] at hx
    obtain ⟨c1, _, c2, _, hx⟩ := hx
    obtain ⟨t1, ht1⟩ := simulate_compound_stint_some track car _ c1 deploy
      harvest hh hw hd0 hd1
    obtain ⟨t2, ht2⟩ := simulate_compound_stint_some track car _ c2 deploy
      harvest hh hw hd0 hd1
    rw [ht1, ht2] at hx
    exact ⟨_, _, hx.symm, rfl⟩

/-- Every two-stop candidate evaluation succeeds and carries exactly two
pit stops. -/
theorem twoStopCands_spec (track : Track) (car : Car) (total_laps : ℕ)
    (pit_loss deploy harvest : ℝ)
    (hh : 0 ≤ track.energy_harvest_factor * harvest)
    (hw : 0 ≤ car.tyre_wear_rate) (hd0 : 0 ≤ deploy) (hd1 : deploy ≤ 1) :
    ∀ x ∈ twoStopCands track car total_laps pit_loss deploy harvest,
      ∃ t s, x = some (t, s) ∧ s.pit_laps.length = 2 := by
  intro x hx
  simp only [twoStopCands, List.mem_flatMap] at hx
  obtain ⟨o1, _, o2, _, hx⟩ := hx
  by_cases hcond : (max 2 ((total_laps : ℤ) / 3) + o1 < 2
      ∨ max (max 2 ((total_laps : ℤ) / 3) + 1) (2 * (total_laps : ℤ) / 3) + o2 ≤
          max 2 ((total_laps : ℤ) / 3) + o1
      ∨ (total_laps : ℤ) ≤
          max (max 2 ((total_laps : ℤ) / 3) + 1) (2 * (total_laps : ℤ) / 3) + o2)
  · rw [if_pos hcond] at hx
    exact absurd hx (List.not_mem_nil x)
  · rw [if_neg hcond] at hx
    simp only [List.mem_flatMap, List.mem_map] at hx
    obtain ⟨c1, _, c2, _, c3, _, hx⟩ := hx
    obtain ⟨t1, ht1⟩ := simulate_compound_stint_some track car _ c1 deploy
      harvest hh hw hd0 hd1
    obtain ⟨t2, ht2⟩ := simulate_compound_stint_some track car _ c2 deploy
      harvest hh hw hd0 hd1
    obtain ⟨t3, ht3⟩ := simulate_compound_stint_some track car _ c3 deploy
      harvest hh hw hd0 hd1
    rw [ht1, ht2, ht3] at hx
    exact ⟨_, _, hx.symm, rfl⟩

/-- Folding defined candidate evaluations yields a defined result that
carries any property shared by all candidates and the incumbent. -/
theorem pitSearchFold_prop (P : Strategy → Prop) :
    ∀ (l : List (Option (ℝ × Strategy))) (best : Option (ℝ × Strategy)),
    (∀ x ∈ l, ∃ t s, x = some (t, s) ∧ P s) →
    (∀ t s, best = some (t, s) → P s) →
    ∃ r, pitSearchFold l best = some r ∧
      (∀ t s, r = some (t, s) → P s) ∧
      ((l ≠ [] ∨ best ≠ none) → r ≠ none) := by
  intro l
  induction l with
  | nil =>
      intro best _ hQ
      refine ⟨best, rfl, hQ, ?_⟩
      rintro (h | h)
      · exact absurd rfl h
      · exact h
  | cons x rest ih =>
      intro best hall hQ
      obtain ⟨t, s, rfl, hPs⟩ := hall x (List.mem_cons_self _ _)
      cases best with
      | none =>
          obtain ⟨r, hr, hrP, hrn⟩ := ih (some (t, s))
            (fun y hy => hall y (List.mem_cons_of_mem _ hy))
            (by rintro t2 s2 h; rw [Option.some.injEq] at h
                rw [show s2 = s from congrArg Prod.snd h.symm]; exact hPs)
          exact ⟨r, hr, hrP, fun _ => hrn (Or.inr (by simp))⟩
      | some p =>
          obtain ⟨bt, bs⟩ := p
          have hPbs : P bs := hQ bt bs rfl
          by_cases hlt : t < bt
          · obtain ⟨r, hr, hrP, hrn⟩ := ih (some (t, s))
              (fun y hy => hall y (List.mem_cons_of_mem _ hy))
              (by rintro t2 s2 h; rw [Option.some.injEq] at h
                  rw [show s2 = s from congrArg Prod.snd h.symm]; exact hPs)
            refine ⟨r, ?_, hrP, fun _ => hrn (Or.inr (by simp))⟩
            simpa only [pitSearchFold, if_pos hlt] using hr
          · obtain ⟨r, hr, hrP, hrn⟩ := ih (some (bt, bs))
              (fun y hy => hall y (List.mem_cons_of_mem _ hy))
              (by rintro t2 s2 h; rw [Option.some.injEq] at h
                  rw [show s2 = bs from congrArg Prod.snd h.symm]; exact hPbs)
            refine ⟨r, ?_, hrP, fun _ => hrn (Or.inr (by simp))⟩
            simpa only [pitSearchFold, if_neg hlt] using hr

/-- C10: for every valid track and car, `find_best_pit_strategy` at
`total_laps ≥ 3` returns a strategy with exactly one or exactly two pit
stops; at `total_laps ∈ {1, 2}` every 1-stop and 2-stop candidate is
rejected by the pit-lap range filters, no zero-stop fallback exists, and
the final `assert best_strategy is not None` fails, so the call raises
(`none`) instead of returning. -/
theorem find_best_pit_strategy_spec (track : Track) (car : Car)
    (total_laps : ℕ) (htr : Track.Valid track) (hcar : Car.Valid car) :
    (3 ≤ total_laps →
      ∃ s t, find_best_pit_strategy track car total_laps 20 = some (s, t) ∧
        (s.pit_laps.length = 1 ∨ s.pit_laps.length = 2)) ∧
    (total_laps = 1 ∨ total_laps = 2 →
      find_best_pit_strategy track car total_laps 20 = none) := by
  have hehf : 0 ≤ track.energy_harvest_factor := htr.2.2.2.2.2.1
  have hw : 0 ≤ car.tyre_wear_rate := hcar.2.2.2.2.2.2.1
  constructor
  · intro hL
    obtain ⟨bs, bt, hbest, hbd0, hbd1, hbh⟩ :=
      find_best_constant_deploy_some track car total_laps htr hcar (by omega)
    have hh : 0 ≤ track.energy_harvest_factor * bs.harvest_level := by
      rw [hbh]; simpa using hehf
    have hall : ∀ x ∈ oneStopCands track car total_laps 20 bs.deploy_level
          bs.harvest_level ++
        twoStopCands track car total_laps 20 bs.deploy_level bs.harvest_level,
        ∃ t s, x = some (t, s) ∧
          (s.pit_laps.length = 1 ∨ s.pit_laps.length = 2) := by
      intro x hx
      rcases List.mem_append.mp hx with hx | hx
      · obtain ⟨t, s, hxe, hlen⟩ := oneStopCands_spec track car total_laps 20
          bs.deploy_level bs.harvest_level hh hw hbd0 hbd1 x hx
        exact ⟨t, s, hxe, Or.inl hlen⟩
      · obtain ⟨t, s, hxe, hlen⟩ := twoStopCands_spec track car total_laps 20
          bs.deploy_level bs.harvest_level hh hw hbd0 hbd1 x hx
        exact ⟨t, s, hxe, Or.inr hlen⟩
    have hne : oneStopCands track car total_laps 20 bs.deploy_level
        bs.harvest_level ≠ [] := by
      have hq : min ((total_laps : ℤ) - 1) ((total_laps : ℤ) / 2) ≤
          (total_laps : ℤ) - 1 := min_le_left _ _
      have hL2 : (3 : ℤ) ≤ (total_laps : ℤ) := by exact_mod_cast hL
      have hcond : ¬ (max 2 (min ((total_laps : ℤ) - 1) ((total_laps : ℤ) / 2)) + 0 < 2
          ∨ (total_laps : ℤ) ≤
              max 2 (min ((total_laps : ℤ) - 1) ((total_laps : ℤ) / 2)) + 0) := by
        generalize min ((total_laps : ℤ) - 1) ((total_laps : ℤ) / 2) = m at hq ⊢
        omega
      refine List.ne_nil_of_mem (a := (fun c2 =>
          match _simulate_compound_stint track car
              (max 2 (min ((total_laps : ℤ) - 1) ((total_laps : ℤ) / 2)) + 0).toNat
              SOFT bs.deploy_level bs.harvest_level,
            _simulate_compound_stint track car
              (total_laps - (max 2 (min ((total_laps : ℤ) - 1)
                ((total_laps : ℤ) / 2)) + 0).toNat) c2 bs.deploy_level
              bs.harvest_level with
          | some t1, some t2 =>
              some (t1 + 20 + t2, ⟨bs.deploy_level, bs.harvest_level,
                [SOFT, c2],
                [(max 2 (min ((total_laps : ℤ) - 1)
                  ((total_laps : ℤ) / 2)) + 0).toNat]⟩)
          | _, _ => none) SOFT) ?_
      simp only [oneStopCands, List.mem_flatMap]
      refine ⟨0, by simp [pitOffsets], ?_⟩
      rw [if_neg hcond]
      simp only [List.mem_flatMap, List.mem_map]
      exact ⟨SOFT, by simp [gridCompounds], SOFT, by simp [gridCompounds], rfl⟩
    obtain ⟨r, hr, hrP, hrn⟩ := pitSearchFold_prop
      (fun s => s.pit_laps.length = 1 ∨ s.pit_laps.length = 2) _ none hall
      (by rintro t s ⟨⟩)
    have hrne : r ≠ none := hrn (Or.inl fun hnil =>
      hne (List.append_eq_nil.mp hnil).1)
    cases r with
    | none => exact absurd rfl hrne
    | some p =>
        obtain ⟨rt, rs⟩ := p
        refine ⟨rs, rt, ?_, hrP rt rs rfl⟩
        simp only [find_best_pit_strategy, hbest, hr]
  · intro hL
    have hL2 : (total_laps : ℤ) ≤ 2 := by
      rcases hL with rfl | rfl <;> norm_num
    have hL1 : 1 ≤ total_laps := by omega
    obtain ⟨bs, bt, hbest, hbd0, hbd1, hbh⟩ :=
      find_best_constant_deploy_some track car total_laps htr hcar hL1
    have h1nil : oneStopCands track car total_laps 20 bs.deploy_level
        bs.harvest_level = [] := by
      simp only [oneStopCands]
      refine List.flatMap_eq_nil_iff.mpr fun off _ => ?_
      rw [if_pos ?_]
      omega
    have h2nil : twoStopCands track car total_laps 20 bs.deploy_level
        bs.harvest_level = [] := by
      simp only [twoStopCands]
      refine List.flatMap_eq_nil_iff.mpr fun o1 _ => ?_
      refine List.flatMap_eq_nil_iff.mpr fun o2 _ => ?_
      rw [if_pos ?_]
      omega
    simp only [find_best_pit_strategy, hbest, h1nil, h2nil, List.nil_append,
      pitSearchFold]

/-- Witness for C10 at the concrete spec scenario. -/
theorem find_best_pit_strategy_spec_witness :
    Track.Valid scenarioTrack ∧ Car.Valid scenarioCar ∧
    (3 ≤ 10 →
      ∃ s t, find_best_pit_strategy scenarioTrack scenarioCar 10 20 = some (s, t) ∧
        (s.pit_laps.length = 1 ∨ s.pit_laps.length = 2)) := by
  have htr : Track.Valid scenarioTrack := by
    refine ⟨by simp [scenarioTrack], ?_⟩
    simp only [scenarioTrack]
    norm_num
  have hcar : Car.Valid scenarioCar := by
    refine ⟨by simp [scenarioCar], ?_⟩
    simp only [scenarioCar]
    norm_num
  exact ⟨htr, hcar,
    (find_best_pit_strategy_spec scenarioTrack scenarioCar 10 htr hcar).1⟩

-- ---------------------------------------------------------------------------
-- Race simulator structure (towards claims C3 and C7)
-- ---------------------------------------------------------------------------

/-- Setting an entry whose image under `f` is unchanged preserves the
image of the list. -/
theorem set_preserve_map {α β : Type} (f : α → β) (d : α) :
    ∀ (l : List α) (i : ℕ) (x : α), f x = f (l.getD i d) →
    (l.set i x).map f = l.map f := by
  intro l
  induction l with
  | nil => intro i x _; rfl
  | cons a rest ih =>
      intro i x hx
      cases i with
      | zero =>
          simp only [List.getD_cons_zero] at hx
          simp only [List.set, List.map_cons, hx]
      | succ n =>
          simp only [List.getD_cons_succ] at hx
          simp only [List.set, List.map_cons, ih n x hx]

/-- Reading through a set whose entry has an unchanged image gives an
unchanged image. -/
theorem getD_set_map {α β : Type} (f : α → β) (d : α) :
    ∀ (l : List α) (i j : ℕ) (y : α), f y = f (l.getD j d) →
    f ((l.set j y).getD i d) = f (l.getD i d) := by
  intro l
  induction l with
  | nil => intro i j y _; rfl
  | cons a rest ih =>
      intro i j y hy
      cases j with
      | zero =>
          simp only [List.getD_cons_zero] at hy
          cases i with
          | zero => simp only [List.set, List.getD_cons_zero, hy]
          | succ n => simp only [List.set, List.getD_cons_succ]
      | succ m =>
          simp only [List.getD_cons_succ] at hy
          cases i with
          | zero => simp only [List.set, List.getD_cons_zero]
          | succ n => simp only [List.set, List.getD_cons_succ, ih n m y hy]

/-- Two successive sets with image-preserving entries leave the image of
the list unchanged. -/
theorem set_set_preserve_map {α β : Type} (f : α → β) (d : α)
    (l : List α) (i j : ℕ) (x y : α)
    (hy : f y = f (l.getD j d)) (hx : f x = f (l.getD i d)) :
    ((l.set j y).set i x).map f = l.map f := by
  refine Eq.trans (set_preserve_map f d _ i x ?_) (set_preserve_map f d l j y hy)
  rw [getD_set_map f d l i j y hy]
  exact hx

/-- One driver-lap update never changes the identity of the driver. -/
theorem driverLap_driver (track : Track) (noise_std : ℝ) (lap_number : ℕ)
    (ds : DriverState) (rng : Rng) (ds2 : DriverState) (rng2 : Rng)
    (h : driverLap track noise_std lap_number ds rng = some (ds2, rng2)) :
    ds2.driver = ds.driver := by
  by_cases hact : ds.active = false
  · simp only [driverLap, if_pos hact, Option.some.injEq, Prod.mk.injEq] at h
    rw [← h.1]
  · simp only [driverLap, if_neg hact] at h
    rcases Option.bind_eq_some.mp h with ⟨p1, hp1, h⟩
    rcases Option.bind_eq_some.mp h with ⟨p2, hp2, h⟩
    rcases Option.bind_eq_some.mp h with ⟨t0, ht0, h⟩
    simp only [Option.some.injEq, Prod.mk.injEq] at h
    rw [← h.1]
    split <;> rfl

/-- The per-lap driver loop preserves the driver list. -/
theorem runDrivers_map_driver (track : Track) (noise_std : ℝ)
    (lap_number : ℕ) :
    ∀ (states : List DriverState) (rng : Rng) states2 rng2,
    runDrivers track noise_std lap_number states rng = some (states2, rng2) →
    states2.map (fun s => s.driver) = states.map (fun s => s.driver) := by
  intro states
  induction states with
  | nil =>
      intro rng s2 r2 h
      simp only [runDrivers, Option.some.injEq, Prod.mk.injEq] at h
      rw [← h.1]
  | cons ds rest ih =>
      intro rng s2 r2 h
      simp only [runDrivers] at h
      rcases Option.bind_eq_some.mp h with ⟨p, hp, h⟩
      rcases Option.bind_eq_some.mp h with ⟨q, hq, h⟩
      simp only [Option.some.injEq, Prod.mk.injEq] at h
      rw [← h.1]
      simp only [List.map_cons]
      rw [driverLap_driver track noise_std lap_number ds rng p.1 p.2
        (by rw [hp]), ih p.2 q.1 q.2 (by rw [hq])]

/-- The overtake pass only transfers cumulative time: the driver list is
unchanged. -/
theorem overtakePass_map_driver (track : Track) :
    ∀ (n : ℕ) (idxs : List ℕ) (states : List DriverState) (rng : Rng),
    idxs.length ≤ n →
    ((overtakePass track idxs states rng).1).map (fun s => s.driver) =
      states.map (fun s => s.driver) := by
  intro n
  induction n with
  | zero =>
      intro idxs states rng hlen
      match idxs with
      | [] => rfl
  | succ n ih =>
      intro idxs states rng hlen
      match idxs with
      | [] => rfl
      | [i] => rfl
      | i :: j :: rest =>
          simp only [List.length_cons] at hlen
          simp only [overtakePass]
          split
          · split
            · rw [ih rest _ _ (by omega)]
              refine set_set_preserve_map (fun s => s.driver) dummyDriverState
                states i j _ _ ?_ ?_ <;> rfl
            · exact ih (j :: rest) _ _
                (by simp only [List.length_cons]; omega)
          · exact ih (j :: rest) _ _
              (by simp only [List.length_cons]; omega)

/-- One full race lap preserves the driver list. -/
theorem raceLap_map_driver (track : Track) (noise_std : ℝ) (lap_number : ℕ)
    (states : List DriverState) (rng : Rng) (states2 : List DriverState)
    (rng2 : Rng)
    (h : raceLap track noise_std lap_number states rng = some (states2, rng2)) :
    states2.map (fun s => s.driver) = states.map (fun s => s.driver) := by
  simp only [raceLap] at h
  rcases Option.bind_eq_some.mp h with ⟨p, hp, h⟩
  simp only [Option.some.injEq] at h
  have h1 : states2 = (overtakePass track (activeRanked p.1) p.1 p.2).1 :=
    congrArg Prod.fst h.symm
  rw [h1, overtakePass_map_driver track (activeRanked p.1).length _ _ _
    (le_refl _), runDrivers_map_driver track noise_std lap_number states rng
      p.1 p.2 (by rw [hp])]

/-- The lap loop preserves the driver list. -/
theorem raceLoop_map_driver (track : Track) (noise_std : ℝ) :
    ∀ (n lap_number : ℕ) (states : List DriverState) (rng : Rng) states2 rng2,
    raceLoop track noise_std n lap_number states rng = some (states2, rng2) →
    states2.map (fun s => s.driver) = states.map (fun s => s.driver) := by
  intro n
  induction n with
  | zero =>
      intro lapn states rng s2 r2 h
      simp only [raceLoop, Option.some.injEq, Prod.mk.injEq] at h
      rw [← h.1]
  | succ n ih =>
      intro lapn states rng s2 r2 h
      simp only [raceLoop] at h
      rcases Option.bind_eq_some.mp h with ⟨p, hp, h⟩
      rw [ih (lapn + 1) p.1 p.2 s2 r2 h,
        raceLap_map_driver track noise_std lapn states rng p.1 p.2 (by rw [hp])]

/-- The initial states carry exactly the entered drivers, in order. -/
theorem initStates_names (track : Track) (laps : ℕ)
    (strategies : String → Option Strategy) :
    ∀ (teams : List Team) (states : List DriverState),
    initStates track laps strategies teams = some states →
    states.map (fun s => s.driver.name) = enteredNames teams := by
  intro teams
  induction teams with
  | nil =>
      intro states h
      simp only [initStates, Option.some.injEq] at h
      rw [← h]
      rfl
  | cons team rest ih =>
      intro states h
      simp only [initStates] at h
      rcases Option.bind_eq_some.mp h with ⟨best, hbest, h⟩
      rcases Option.bind_eq_some.mp h with ⟨rs, hrs, h⟩
      simp only [Option.some.injEq] at h
      rw [← h]
      simp only [enteredNames, List.flatMap_cons, List.map_append,
        List.map_map]
      rw [show ((fun s : DriverState => s.driver.name) ∘ fun driver =>
          mkDriverState driver team.car ((strategies driver.name).getD best.1)) =
          fun d : Driver => d.name from rfl]
      rw [ih rs hrs]
      rfl

/-- Decomposition of a successful `simulate_race`: the result is built
from a final state list that carries the entered drivers in order, with
finishers sorted by cumulative time followed by the DNF entries in state
order. -/
theorem simulate_race_shape (track : Track) (teams : List Team) (laps : ℕ)
    (noise_std : ℝ) (strategies : String → Option Strategy) (rng : Rng)
    (res : RaceResult)
    (h : simulate_race track teams laps noise_std strategies rng = some res) :
    ∃ final : List DriverState,
      final.map (fun s => s.driver.name) = enteredNames teams ∧
      res.final_classification =
        (sortActive final).map (fun s => s.driver.name) ++
          (final.filter (fun s => !s.active)).map (fun s => s.driver.name) ∧
      res.dnf_list = (final.filter (fun s => !s.active)).map
        (fun s => s.driver.name) ∧
      res.lap_times = final.map (fun s => (s.driver.name, s.lap_times)) := by
  simp only [simulate_race] at h
  by_cases h1 : laps < 1
  · rw [if_pos h1] at h; exact absurd h (by simp)
  · rw [if_neg h1] at h
    by_cases h2 : teams.isEmpty
    · rw [if_pos h2] at h; exact absurd h (by simp)
    · rw [if_neg h2] at h
      rcases Option.bind_eq_some.mp h with ⟨states0, hs0, h⟩
      rcases Option.bind_eq_some.mp h with ⟨p, hp, h⟩
      simp only [Option.some.injEq] at h
      refine ⟨p.1, ?_, ?_, ?_, ?_⟩
      · have hmd := raceLoop_map_driver track noise_std laps 1 states0 rng
          p.1 p.2 (by rw [hp])
        have hnames : p.1.map (fun s => s.driver.name) =
            states0.map (fun s => s.driver.name) := by
          have := congrArg (List.map (fun d : Driver => d.name)) hmd
          simpa [List.map_map] using this
        rw [hnames, initStates_names track laps strategies teams states0 hs0]
      · rw [← h]
      · rw [← h]
      · rw [← h]

/-- C3 (amended): the final classification of every simulated race lists
every entered driver exactly once: the still-active drivers sorted by
ascending cumulative time, followed by the DNF drivers in the order in
which they were entered (team/driver enumeration order) — not in the
order in which they retired. -/
theorem simulate_race_classification (track : Track) (teams : List Team)
    (laps : ℕ) (noise_std : ℝ) (strategies : String → Option Strategy)
    (rng : Rng) (res : RaceResult)
    (h : simulate_race track teams laps noise_std strategies rng = some res) :
    res.final_classification.Perm (enteredNames teams) ∧
    ∃ final : List DriverState,
      final.map (fun s => s.driver.name) = enteredNames teams ∧
      res.final_classification =
        (sortActive final).map (fun s => s.driver.name) ++
          (final.filter (fun s => !s.active)).map (fun s => s.driver.name) ∧
      ((sortActive final).map (fun s => s.cumulative_time)).Sorted (· ≤ ·) ∧
      res.dnf_list = (final.filter (fun s => !s.active)).map
        (fun s => s.driver.name) := by
  obtain ⟨final, hnames, hcl, hdnf, _⟩ :=
    simulate_race_shape track teams laps noise_std strategies rng res h
  have hsorted : ((sortActive final).map
      (fun s => s.cumulative_time)).Sorted (· ≤ ·) := by
    letI : IsTotal DriverState
        (fun a b : DriverState => a.cumulative_time ≤ b.cumulative_time) :=
      ⟨fun a b => le_total _ _⟩
    letI : IsTrans DriverState
        (fun a b : DriverState => a.cumulative_time ≤ b.cumulative_time) :=
      ⟨fun a b c hab hbc => le_trans hab hbc⟩
    have hs := List.sorted_insertionSort
      (fun a b : DriverState => a.cumulative_time ≤ b.cumulative_time)
      (final.filter (fun s => s.active))
    rw [List.Sorted, List.pairwise_map]
    exact hs
  refine ⟨?_, final, hnames, hcl, hsorted, hdnf⟩
  rw [hcl, ← hnames]
  have hperm1 : (sortActive final).Perm (final.filter (fun s => s.active)) :=
    List.perm_insertionSort _ _
  refine List.Perm.trans
    (List.Perm.append (hperm1.map _) (List.Perm.refl _)) ?_
  rw [← List.map_append]
  exact (List.filter_append_perm _ final).map _

-- ---------------------------------------------------------------------------
-- Points award structure (towards claim C7)
-- ---------------------------------------------------------------------------

/-- A driver absent from the classification scores nothing. -/
theorem racePointsAux_not_mem (d : String) :
    ∀ (l : List String) (i : ℕ), d ∉ l → racePointsAux l i d = 0 := by
  intro l
  induction l with
  | nil => intro i _; rfl
  | cons n rest ih =>
      intro i hd
      have hn : ¬ (n = d) := fun hc => hd (by rw [hc]; exact List.mem_cons_self _ _)
      have hrest : d ∉ rest := fun hc => hd (List.mem_cons_of_mem _ hc)
      simp only [racePointsAux, hn, false_and, if_false, ih (i + 1) hrest]

/-- On a duplicate-free classification, the points of a classified driver
are read off the table at its position. -/
theorem racePointsAux_eq (d : String) :
    ∀ (l : List String) (i : ℕ), d ∈ l → l.Nodup →
    racePointsAux l i d =
      if i + l.indexOf d < _POINTS_TABLE.length
      then _POINTS_TABLE.getD (i + l.indexOf d) 0 else 0 := by
  intro l
  induction l with
  | nil => intro i hd _; exact absurd hd (List.not_mem_nil d)
  | cons n rest ih =>
      intro i hd hnd
      by_cases hn : n = d
      · have hrest : d ∉ rest := by
          have h0 := (List.nodup_cons.mp hnd).1
          rw [hn] at h0
          exact h0
        have hidx : (n :: rest).indexOf d = 0 := by
          rw [hn]
          exact List.indexOf_cons_self d rest
        rw [hidx]
        simp only [racePointsAux, hn, eq_self_iff_true, true_and,
          racePointsAux_not_mem d rest (i + 1) hrest, Nat.add_zero]
      · have hdrest : d ∈ rest := by
          rcases List.mem_cons.mp hd with hc | hc
          · exact absurd hc.symm hn
          · exact hc
        have hidx : (n :: rest).indexOf d = rest.indexOf d + 1 :=
          List.indexOf_cons_ne rest hn
        rw [hidx]
        have harith : i + (rest.indexOf d + 1) = (i + 1) + rest.indexOf d := by
          omega
        rw [harith]
        simp only [racePointsAux, hn, false_and, if_false, Nat.zero_add]
        exact ih (i + 1) hdrest (List.nodup_cons.mp hnd).2

/-- C7 (amended): in every replication, the points table 25, 18, 15, 12,
10, 8, 6, 4, 2, 1 is awarded down the first ten entries of the final
classification regardless of DNF status: a driver on the DNF list
receives the table entry of its classified position when that position
is within the top ten — a nonzero score — and zero points only when at
least ten drivers are classified ahead of it. -/
theorem race_points_topten (track : Track) (teams : List Team) (laps : ℕ)
    (noise_std : ℝ) (strategies : String → Option Strategy) (rng : Rng)
    (res : RaceResult)
    (h : simulate_race track teams laps noise_std strategies rng = some res)
    (hnd : res.final_classification.Nodup) (d : String)
    (hd : d ∈ res.dnf_list) :
    racePoints res.final_classification d =
      (if res.final_classification.indexOf d < 10
        then _POINTS_TABLE.getD (res.final_classification.indexOf d) 0
        else 0) ∧
    (res.final_classification.indexOf d < 10 →
      racePoints res.final_classification d ≠ 0) := by
  obtain ⟨final, _, hcl, hdnf, _⟩ :=
    simulate_race_shape track teams laps noise_std strategies rng res h
  have hmem : d ∈ res.final_classification := by
    rw [hcl]
    refine List.mem_append_right _ ?_
    rw [← hdnf]
    exact hd
  have heq := racePointsAux_eq d res.final_classification 0 hmem hnd
  simp only [Nat.zero_add] at heq
  have hlen : _POINTS_TABLE.length = 10 := rfl
  rw [hlen] at heq
  have heq2 : racePoints res.final_classification d =
      (if res.final_classification.indexOf d < 10
        then _POINTS_TABLE.getD (res.final_classification.indexOf d) 0
        else 0) := heq
  refine ⟨heq2, ?_⟩
  intro hidx
  rw [heq2, if_pos hidx]
  have hpos : ∀ k : ℕ, k < 10 → _POINTS_TABLE.getD k 0 ≠ 0 := by
    intro k hk
    interval_cases k <;> simp [_POINTS_TABLE]
  exact hpos _ hidx

/-- The fixture track is valid. -/
theorem cxTrack_valid : Track.Valid cxTrack := by
  refine ⟨by simp [cxTrack], ?_⟩
  simp only [cxTrack]
  norm_num

/-- The fixture car is valid. -/
theorem cxCar_valid : Car.Valid cxCar := by
  refine ⟨by simp [cxCar], ?_⟩
  simp only [cxCar]
  norm_num

/-- The one-lap fixture run, evaluated: `D2` retires on lap 1 and is
classified second; both drivers record a 79.7 s lap. -/
theorem cx_run_eq :
    simulate_race cxTrack [cxTeam] 1 0.05 cxStrategies cxRng =
      some ⟨["D1", "D2"], ["D2"], [("D1", [79.7]), ("D2", [79.7])]⟩ := by
  obtain ⟨s0, t0, hfb, _, _, _⟩ :=
    find_best_constant_deploy_some cxTrack cxCar 1 cxTrack_valid cxCar_valid
      (le_refl 1)
  have hfb2 := hfb
  norm_num [cxTrack, cxCar] at hfb2
  have hd1 : decide ((1:ℝ) < 1 - Real.exp (-(1 / 2))) = false :=
    decide_eq_false (by nlinarith [Real.exp_pos (-(1/2 : ℝ))])
  norm_num [simulate_race, initStates, raceLoop, raceLap, runDrivers,
    driverLap, overtakePass, activeRanked, sortActive, mkDriverState,
    cxTrack, cxCar, cxD1, cxD2, cxTeam, cxStrat, cxStrategies, cxRng,
    Rng.normal, Rng.random, EnergyState.harvest, EnergyState.deploy,
    lap_time, lapTimeFormula, MEDIUM, enteredNames,
    hfb2, List.range_succ, List.getD, hd1]

/-- The two-lap fixture run, evaluated: `D2` retires on lap 1 (one
recorded lap), `D1` on lap 2 (two recorded laps), and the DNF list reads
`[D1, D2]` — entry order, not retirement order. -/
theorem cx2_run_eq :
    simulate_race cxTrack [cxTeam] 2 0.05 cxStrategies cx2Rng =
      some ⟨["D1", "D2"], ["D1", "D2"],
        [("D1", [79.7, 79.7]), ("D2", [79.7])]⟩ := by
  obtain ⟨s0, t0, hfb, _, _, _⟩ :=
    find_best_constant_deploy_some cxTrack cxCar 2 cxTrack_valid cxCar_valid
      (by omega)
  have hfb2 := hfb
  norm_num [cxTrack, cxCar] at hfb2
  have hd1 : decide ((1:ℝ) < 1 - Real.exp (-(1 / 2))) = false :=
    decide_eq_false (by nlinarith [Real.exp_pos (-(1/2 : ℝ))])
  norm_num [simulate_race, initStates, raceLoop, raceLap, runDrivers,
    driverLap, overtakePass, activeRanked, sortActive, mkDriverState,
    cxTrack, cxCar, cxD1, cxD2, cxTeam, cxStrat, cxStrategies, cx2Rng,
    Rng.normal, Rng.random, EnergyState.harvest, EnergyState.deploy,
    lap_time, lapTimeFormula, MEDIUM, enteredNames,
    hfb2, List.range_succ, List.getD, hd1]

/-- C7 counterexample: in the one-lap replication of the fixture race
(one team, drivers `D1` and `D2`, oracle draws retiring `D2` on lap 1),
the final classification is `[D1, D2]` with `D2` on the DNF list, and
the Monte-Carlo scorer awards `D2` 18 points — not zero as claimed. -/
theorem race_points_dnf_counterexample :
    (simulate_race cxTrack [cxTeam] 1 0.05 cxStrategies cxRng).map
        (fun r => (r.final_classification, r.dnf_list,
          racePoints r.final_classification "D2")) =
      some (["D1", "D2"], ["D2"], 18) ∧ (18 : ℕ) ≠ 0 := by
  rw [cx_run_eq]
  exact ⟨rfl, by decide⟩

/-- C3 counterexample: in the 2-lap fixture replication driver `D2`
retires on lap 1 (its lap-time list has one entry — a retired driver is
no longer simulated) and driver `D1` retires on lap 2 (two entries), yet
the DNF list reads `[D1, D2]`: the DNF entries appear in the order the
drivers were entered, so the driver who retired earliest appears last,
not first as claimed. -/
theorem dnf_order_counterexample :
    (simulate_race cxTrack [cxTeam] 2 0.05 cxStrategies cx2Rng).map
        (fun r => (r.final_classification, r.dnf_list,
          ((r.lap_times.lookup "D1").getD []).length,
          ((r.lap_times.lookup "D2").getD []).length)) =
      some (["D1", "D2"], ["D1", "D2"], 2, 1) ∧ (1 : ℕ) < 2 := by
  rw [cx2_run_eq]
  exact ⟨rfl, by decide⟩

/-- Witness for C3 (amended), on the evaluated one-lap fixture run. -/
theorem simulate_race_classification_witness :
    simulate_race cxTrack [cxTeam] 1 0.05 cxStrategies cxRng =
      some ⟨["D1", "D2"], ["D2"], [("D1", [79.7]), ("D2", [79.7])]⟩ ∧
    (["D1", "D2"] : List String).Perm (enteredNames [cxTeam]) :=
  ⟨cx_run_eq,
    (simulate_race_classification cxTrack [cxTeam] 1 0.05 cxStrategies cxRng
      ⟨["D1", "D2"], ["D2"], [("D1", [79.7]), ("D2", [79.7])]⟩ cx_run_eq).1⟩

/-- Witness for C7 (amended), on the evaluated one-lap fixture run. -/
theorem race_points_topten_witness :
    simulate_race cxTrack [cxTeam] 1 0.05 cxStrategies cxRng =
      some ⟨["D1", "D2"], ["D2"], [("D1", [79.7]), ("D2", [79.7])]⟩ ∧
    (["D1", "D2"] : List String).Nodup ∧ "D2" ∈ (["D2"] : List String) ∧
    racePoints ["D1", "D2"] "D2" =
      (if (["D1", "D2"] : List String).indexOf "D2" < 10
        then _POINTS_TABLE.getD ((["D1", "D2"] : List String).indexOf "D2") 0
        else 0) :=
  ⟨cx_run_eq, by decide, by decide,
    (race_points_topten cxTrack [cxTeam] 1 0.05 cxStrategies cxRng
      ⟨["D1", "D2"], ["D2"], [("D1", [79.7]), ("D2", [79.7])]⟩ cx_run_eq
      (by decide) "D2" (by decide)).1⟩

-- ---------------------------------------------------------------------------
-- Safety-car regime properties (claim C2)
-- ---------------------------------------------------------------------------

/-- Compression places the `(i + k)`-th car `(i + k) * SC_GAP_INTERVAL`
behind the leader. -/
theorem scCompress_getD (leader_time : ℝ) :
    ∀ (l : List DriverState) (i k : ℕ), k < l.length →
    ((scCompress leader_time i l).getD k dummyDriverState).cumulative_time =
      leader_time + (i + k) * SC_GAP_INTERVAL := by
  intro l
  induction l with
  | nil => intro i k hk; simp at hk
  | cons s rest ih =>
      intro i k hk
      cases k with
      | zero =>
          simp only [scCompress, List.getD_cons_zero]
          push_cast
          ring
      | succ m =>
          simp only [scCompress, List.getD_cons_succ]
          rw [ih (i + 1) m (by simpa using hk)]
          push_cast
          ring

/-- Compression preserves the length of the field. -/
theorem scCompress_length (leader_time : ℝ) :
    ∀ (l : List DriverState) (i : ℕ),
    (scCompress leader_time i l).length = l.length := by
  intro l
  induction l with
  | nil => intro i; rfl
  | cons s rest ih => intro i; simp only [scCompress, List.length_cons, ih]

/-- Compression only rewrites cumulative times: the ranked names are
unchanged (no position swap). -/
theorem scCompress_map_name (leader_time : ℝ) :
    ∀ (l : List DriverState) (i : ℕ),
    (scCompress leader_time i l).map (fun s => s.driver.name) =
      l.map (fun s => s.driver.name) := by
  intro l
  induction l with
  | nil => intro i; rfl
  | cons s rest ih => intro i; simp only [scCompress, List.map_cons, ih]

/-- C2 (spec-modelled): on every lap with the safety-car regime active,
every active driver runs exactly the fixed safety-car pace `SC_PACE`
(the physics-derived lap time is overridden), a pit stop on that lap
costs `PIT_LOSS * SC_PIT_MULTIPLIER` with `SC_PIT_MULTIPLIER < 1`, after
the lap every adjacent pair of ranked active cars is exactly
`SC_GAP_INTERVAL` apart, and no overtaking swap occurs: the ranked order
after the lap is exactly the cumulative-time ranking, with no logistic
pass applied. -/
theorem safety_car_regime_spec (lap_number : ℕ) (ds : DriverState)
    (states : List DriverState) (k : ℕ) :
    (ds.active = true →
      (scDriverLap lap_number ds).last_lap_time = SC_PACE ∧
      (scDriverLap lap_number ds).lap_times = ds.lap_times ++ [SC_PACE]) ∧
    (ds.active = true → lap_number ∈ ds.pit_laps →
      (scDriverLap lap_number ds).cumulative_time =
        ds.cumulative_time + SC_PACE + PIT_LOSS * SC_PIT_MULTIPLIER) ∧
    SC_PIT_MULTIPLIER < 1 ∧
    (k + 1 < (scLapRanked lap_number states).length →
      ((scLapRanked lap_number states).getD (k + 1)
          dummyDriverState).cumulative_time -
        ((scLapRanked lap_number states).getD k
          dummyDriverState).cumulative_time = SC_GAP_INTERVAL) ∧
    (scLapRanked lap_number states).map (fun s => s.driver.name) =
      (sortActive (states.map (scDriverLap lap_number))).map
        (fun s => s.driver.name) := by
  refine ⟨?_, ?_, ?_, ?_, ?_⟩
  · intro hact
    have hne : ¬ (ds.active = false) := by simp [hact]
    constructor <;> simp only [scDriverLap, if_neg hne]
  · intro hact hpit
    have hne : ¬ (ds.active = false) := by simp [hact]
    simp only [scDriverLap, if_neg hne, if_pos hpit]
  · simp only [SC_PIT_MULTIPLIER]
    norm_num
  · intro hk
    cases hsort : sortActive (states.map (scDriverLap lap_number)) with
    | nil =>
        have hred : scLapRanked lap_number states = [] := by
          simp only [scLapRanked, hsort]
        rw [hred] at hk
        simp at hk
    | cons leader rest =>
        have hred : scLapRanked lap_number states =
            scCompress leader.cumulative_time 0 (leader :: rest) := by
          simp only [scLapRanked, hsort]
        rw [hred] at hk ⊢
        have hlen0 := scCompress_length leader.cumulative_time (leader :: rest) 0
        rw [scCompress_getD leader.cumulative_time (leader :: rest) 0 (k + 1)
          (by omega), scCompress_getD leader.cumulative_time (leader :: rest) 0 k
          (by omega)]
        push_cast
        ring
  · cases hsort : sortActive (states.map (scDriverLap lap_number)) with
    | nil =>
        have hred : scLapRanked lap_number states = [] := by
          simp only [scLapRanked, hsort]
        rw [hred]
    | cons leader rest =>
        have hred : scLapRanked lap_number states =
            scCompress leader.cumulative_time 0 (leader :: rest) := by
          simp only [scLapRanked, hsort]
        rw [hred]
        exact scCompress_map_name leader.cumulative_time (leader :: rest) 0

/-- Witness for C2 at a concrete field of two active drivers, one with a
pit stop scheduled on the lap. -/
theorem safety_car_regime_spec_witness :
    dummyDriverState.active = true ∧
    (1 : ℕ) ∈ ({ dummyDriverState with pit_laps := [1] } : DriverState).pit_laps ∧
    0 + 1 < (scLapRanked 1 [dummyDriverState, dummyDriverState]).length ∧
    (scDriverLap 1 { dummyDriverState with pit_laps := [1] }).cumulative_time =
      ({ dummyDriverState with pit_laps := [1] } : DriverState).cumulative_time +
        SC_PACE + PIT_LOSS * SC_PIT_MULTIPLIER ∧
    ((scLapRanked 1 [dummyDriverState, dummyDriverState]).getD (0 + 1)
        dummyDriverState).cumulative_time -
      ((scLapRanked 1 [dummyDriverState, dummyDriverState]).getD 0
        dummyDriverState).cumulative_time = SC_GAP_INTERVAL := by
  have hact : dummyDriverState.active = true := rfl
  have hpit : (1 : ℕ) ∈
      ({ dummyDriverState with pit_laps := [1] } : DriverState).pit_laps := by
    simp
  have hlen : 0 + 1 < (scLapRanked 1 [dummyDriverState, dummyDriverState]).length := by
    simp only [scLapRanked, List.map_cons, List.map_nil]
    have hds : scDriverLap 1 dummyDriverState =
        { dummyDriverState with
          last_lap_time := SC_PACE
          cumulative_time := dummyDriverState.cumulative_time + SC_PACE + 0
          lap_times := dummyDriverState.lap_times ++ [SC_PACE]
          tyre := { dummyDriverState.tyre with age := dummyDriverState.tyre.age + 1 } } := by
      simp [scDriverLap, dummyDriverState]
    rw [hds]
    norm_num [sortActive, dummyDriverState, List.insertionSort,
      List.orderedInsert, scCompress_length]
  refine ⟨hact, hpit, hlen, ?_, ?_⟩
  · exact (safety_car_regime_spec 1 { dummyDriverState with pit_laps := [1] }
      [dummyDriverState, dummyDriverState] 0).2.1 hact hpit
  · exact (safety_car_regime_spec 1 dummyDriverState
      [dummyDriverState, dummyDriverState] 0).2.2.2.1 hlen

end F1

